import Mathlib

/-!
# FIFE scene model: `Layer` (engine/core/model/structures/layer.cpp)

A shallow embedding of the `Layer` class of the FIFE engine and proofs about
instance creation and deletion, the per-tick update pass and the listener
fan-out.

Conventions of the embedding

* Pointers (`Instance*`, `LayerChangeListener*`, `Layer*`, `Object*`, `Map*`)
  are addresses, natural numbers; pointer comparison is equality of addresses.
* Heap objects of class `Instance` live in a store `Heap`, a partial map from
  addresses to objects. `new Instance(..)` writes the object at the address the
  allocator hands out (an argument of `createInstance`), `delete` clears it.
* `std::vector` members are lists; `push_back` appends at the end.
* Listener callbacks are virtual calls into code outside the layer. Each call
  is recorded as an `Event` at the end of the log of the `World`, together with
  the layer members and the store as they are at the moment of the call. The
  member functions are embedded twice: first with passive listeners, whose
  callbacks leave the layer alone, then (`createInstanceLive`,
  `deleteInstanceLive`, `updateLive`) with listeners that call back into the
  layer while it walks its listener vector. With passive listeners the second
  embedding gives the results of the first.
* `double` components are only stored and copied by the functions embedded
  here, never computed with; they are represented by rationals.
* A query that reads through an instance pointer returns `none` when the
  pointer is not the address of a live object, or when a library call throws;
  the theorems show that this does not happen for the states they speak of.
* `int` values are integers; the one place where the range of `int` matters,
  the formatted extraction in `parse_point`, carries it explicitly.
-/

namespace FIFE

/-! ## Data model -/

/-- Address of an `Instance` object. -/
abbrev InstancePtr := Nat

/-- Address of a `LayerChangeListener` object. -/
abbrev ListenerPtr := Nat

/-- Address of a `Layer` object. -/
abbrev LayerPtr := Nat

/-- Address of a `Map` object. -/
abbrev MapPtr := Nat

/-- Address of an `Object` (the shared template of instances). -/
abbrev ObjectPtr := Nat

/-- Integer cell coordinate, `ModelCoordinate` in the source. -/
structure ModelCoordinate where
  x : Int
  y : Int
  z : Int
  deriving DecidableEq, Repr

/-- Sub-cell coordinate, `ExactModelCoordinate` in the source. -/
structure ExactModelCoordinate where
  x : Rat
  y : Rat
  z : Rat
  deriving DecidableEq, Repr

/-- Modelled from the spec: class `Location` (location.h is not part of the
sources at hand). A location is a layer reference, null until `setLayer` is
called, and an exact coordinate triple. -/
structure Location where
  m_layer : Option LayerPtr
  m_exact_layer_coords : ExactModelCoordinate
  deriving DecidableEq, Repr

namespace Location

/-- Modelled from the spec: the default constructed `Location`, with no layer
and the zero coordinate. -/
def init : Location := ⟨none, ⟨0, 0, 0⟩⟩

/-- Modelled from the spec: `Location::setLayer`. -/
def setLayer (l : Location) (layer : LayerPtr) : Location :=
  { l with m_layer := some layer }

/-- Modelled from the spec: `Location::setExactLayerCoordinates`. -/
def setExactLayerCoordinates (l : Location) (p : ExactModelCoordinate) : Location :=
  { l with m_exact_layer_coords := p }

/-- Modelled from the spec: `Location::getLayer`. -/
def getLayer (l : Location) : Option LayerPtr := l.m_layer

/-- Modelled from the spec: `Location::getExactLayerCoordinates`. -/
def getExactLayerCoordinates (l : Location) : ExactModelCoordinate :=
  l.m_exact_layer_coords

end Location

/-- Modelled from the spec: class `Instance` (instance.h is not part of the
sources at hand): a reference to the shared template, the current location, the
string id, and the bag of named attribute values, kept as (name, value) pairs
with the most recent one in front. -/
structure Instance where
  m_object : ObjectPtr
  m_location : Location
  m_id : String
  m_fields : List (String × String)
  deriving DecidableEq, Repr

namespace Instance

/-- Modelled from the spec: the constructor `Instance(object, location, id)`; a
new instance carries no attribute value. -/
def create (object : ObjectPtr) (location : Location) (id : String) : Instance :=
  ⟨object, location, id, []⟩

/-- Modelled from the spec: `AttributedClass::get(field)`, the value of the
named attribute; an attribute that was never set reads as the empty string. -/
def get (i : Instance) (field : String) : String :=
  match i.m_fields.lookup field with
  | some value => value
  | none => ""

/-- Modelled from the spec: `AttributedClass::set(field, value)`. -/
def set (i : Instance) (field value : String) : Instance :=
  { i with m_fields := (field, value) :: i.m_fields }

/-- Modelled from the spec: `Instance::getLocationRef`. -/
def getLocationRef (i : Instance) : Location := i.m_location

/-- Modelled from the spec: `Instance::getObject`. -/
def getObject (i : Instance) : ObjectPtr := i.m_object

end Instance

/-- The result type of `Instance::update`, a bit mask of changes. -/
abbrev InstanceChangeInfo := Nat

/-- Modelled from the spec: the enumerator `ICHANGE_NO_CHANGES` (instance.h is
not part of the sources at hand); the layer treats the result of an instance
update as a zero / non-zero signal. -/
def ICHANGE_NO_CHANGES : InstanceChangeInfo := 0

/-- Modelled from the spec: the grid abstraction `CellGrid`, of which the layer
needs the conversion from exact coordinates to cell coordinates. -/
structure CellGrid where
  toLayerCoordinates : ExactModelCoordinate → ModelCoordinate

/-- Modelled from the spec: `Location::getLayerCoordinates`, the cell view of a
location through the grid of its layer. -/
def Location.getLayerCoordinates (grid : CellGrid) (l : Location) : ModelCoordinate :=
  grid.toLayerCoordinates l.m_exact_layer_coords

/-- Modelled from the spec: class `InstanceTree` (instancetree.h is not part of
the sources at hand). The index maps occupied cells to the instances located
there and owns no instance; it is kept as the list of (cell, instance) entries
in insertion order. -/
structure InstanceTree where
  entries : List (ModelCoordinate × InstancePtr)
  deriving DecidableEq, Repr

namespace InstanceTree

/-- Modelled from the spec: the index built by `new InstanceTree()`. -/
def empty : InstanceTree := ⟨[]⟩

/-- Modelled from the spec: `InstanceTree::addInstance` adds the instance under
the cell its current location occupies, without duplicate detection. -/
def addInstance (t : InstanceTree) (grid : CellGrid) (inst : InstancePtr)
    (obj : Instance) : InstanceTree :=
  ⟨t.entries ++ [(obj.getLocationRef.getLayerCoordinates grid, inst)]⟩

/-- Modelled from the spec: `InstanceTree::removeInstance` removes the instance
from whatever cell it occupies; nothing happens if it is absent. -/
def removeInstance (t : InstanceTree) (inst : InstancePtr) : InstanceTree :=
  ⟨t.entries.filter (fun e => decide (e.2 ≠ inst))⟩

/-- The instances held in the index, in insertion order. -/
def instances (t : InstanceTree) : List InstancePtr :=
  t.entries.map Prod.snd

end InstanceTree

/-- The enumeration `PathingStrategy`; only the enumerator used by the
constructor of `Layer` occurs in the sources at hand. -/
inductive PathingStrategy where
  | CELL_EDGES_ONLY
  deriving DecidableEq, Repr

/-- The members of class `Layer`, with `thisPtr` the address of the object. -/
structure Layer where
  thisPtr : LayerPtr
  m_id : String
  m_map : MapPtr
  m_instances_visibility : Bool
  m_instances : List InstancePtr
  m_instanceTree : InstanceTree
  m_grid : CellGrid
  m_pathingstrategy : PathingStrategy
  m_changelisteners : List ListenerPtr
  m_changedinstances : List InstancePtr
  m_changed : Bool

/-- The store of `Instance` objects: the object at each live address. -/
abbrev Heap := InstancePtr → Option Instance

/-- The three callbacks of `LayerChangeListener`, with their arguments. -/
inductive Callback where
  | onInstanceCreate (layer : LayerPtr) (inst : InstancePtr)
  | onInstanceDelete (layer : LayerPtr) (inst : InstancePtr)
  | onLayerChanged (layer : LayerPtr) (changedInstances : List InstancePtr)
  deriving DecidableEq, Repr

/-- One listener callback: who was called, with what, and the layer members and
instance store at the moment of the call. -/
structure Event where
  listener : ListenerPtr
  call : Callback
  layer : Layer
  heap : Heap

/-- The state the member functions of a layer run in: the layer object, the
store of instances, and the log of listener callbacks issued so far. -/
structure World where
  layer : Layer
  heap : Heap
  log : List Event

/-- A virtual call of callback `cb` on a passive `listener`: it is recorded
with the current state and leaves the layer alone. -/
def World.call (w : World) (listener : ListenerPtr) (cb : Callback) : World :=
  { w with log := w.log ++ [⟨listener, cb, w.layer, w.heap⟩] }

/-- The callbacks issued between state `w` and the later state `w'`. -/
def World.eventsSince (w w' : World) : List Event :=
  w'.log.drop w.log.length

/-- What a call of `Instance::update(curticks)` does (instance.cpp is not part
of the sources at hand): the change mask it returns for the instance at each
address, and its effect on the members of that instance. -/
structure InstanceUpdate where
  result : Nat → InstancePtr → InstanceChangeInfo
  effect : Nat → InstancePtr → Instance → Instance

namespace Layer

/-! ## Member functions of `Layer` -/

/-- The constructor `Layer::Layer(identifier, map, grid)`, for the object at
address `thisPtr`. -/
def construct (thisPtr : LayerPtr) (identifier : String) (map : MapPtr)
    (grid : CellGrid) : Layer :=
  { thisPtr := thisPtr
    m_id := identifier
    m_map := map
    m_instances_visibility := true
    m_instances := []
    m_instanceTree := InstanceTree.empty
    m_grid := grid
    m_pathingstrategy := PathingStrategy.CELL_EDGES_ONLY
    m_changelisteners := []
    m_changedinstances := []
    m_changed := false }

/-- The function `Layer::hasInstances`. -/
def hasInstances (w : World) : Bool :=
  !w.layer.m_instances.isEmpty

/-- The function `Layer::getInstances()`. -/
def getInstances (w : World) : List InstancePtr :=
  w.layer.m_instances

/-- The listener loop of `createInstance`: `onInstanceCreate(this, instance)`
on each listener from `i` to the end of `m_changelisteners`. -/
def createInstance.notifyLoop (inst : InstancePtr) : List ListenerPtr → World → World
  | [], w => w
  | i :: rest, w =>
    createInstance.notifyLoop inst rest
      (w.call i (Callback.onInstanceCreate w.layer.thisPtr inst))

/-- The function `Layer::createInstance(object, p, id)` with `p` an exact
coordinate; `addr` is the address `new Instance(..)` returns. -/
def createInstance (w : World) (addr : InstancePtr) (object : ObjectPtr)
    (p : ExactModelCoordinate) (id : String) : InstancePtr × World :=
  let l := (Location.init.setLayer w.layer.thisPtr).setExactLayerCoordinates p
  let obj := Instance.create object l id
  let inst := addr
  let w1 : World := { w with heap := Function.update w.heap inst (some obj) }
  let w2 : World :=
    { w1 with layer := { w1.layer with m_instances := w1.layer.m_instances ++ [inst] } }
  let w3 : World :=
    { w2 with layer := { w2.layer with
        m_instanceTree := w2.layer.m_instanceTree.addInstance w2.layer.m_grid inst obj } }
  let w4 := createInstance.notifyLoop inst w3.layer.m_changelisteners w3
  let w5 : World := { w4 with layer := { w4.layer with m_changed := true } }
  (inst, w5)

/-- The overload `Layer::createInstance(object, p, id)` with `p` a cell
coordinate, converted component by component. -/
def createInstanceAtCell (w : World) (addr : InstancePtr) (object : ObjectPtr)
    (p : ModelCoordinate) (id : String) : InstancePtr × World :=
  let emc : ExactModelCoordinate := ⟨(p.x : Rat), (p.y : Rat), (p.z : Rat)⟩
  createInstance w addr object emc id

/-- The listener loop of `deleteInstance`: `onInstanceDelete(this, instance)`
on each listener from `i` to the end of `m_changelisteners`. -/
def deleteInstance.notifyLoop (inst : InstancePtr) : List ListenerPtr → World → World
  | [], w => w
  | i :: rest, w =>
    deleteInstance.notifyLoop inst rest
      (w.call i (Callback.onInstanceDelete w.layer.thisPtr inst))

/-- The search loop of `deleteInstance`: `before` are the elements of
`m_instances` already passed, `it :: rest` those from the iterator on. At the
first element equal to `inst` it is removed from the index, the object is
freed, the element is erased from the vector and the loop is left. -/
def deleteInstance.eraseLoop (inst : InstancePtr) :
    List InstancePtr → List InstancePtr → World → World
  | _, [], w => w
  | before, it :: rest, w =>
    if it = inst then
      { w with
        layer := { w.layer with
          m_instanceTree := w.layer.m_instanceTree.removeInstance it
          m_instances := before ++ rest }
        heap := Function.update w.heap it none }
    else
      deleteInstance.eraseLoop inst (before ++ [it]) rest w

/-- The function `Layer::deleteInstance(instance)`. -/
def deleteInstance (w : World) (inst : InstancePtr) : World :=
  let w1 := deleteInstance.notifyLoop inst w.layer.m_changelisteners w
  let w2 := deleteInstance.eraseLoop inst [] w1.layer.m_instances w1
  { w2 with layer := { w2.layer with m_changed := true } }

/-- The function `Layer::setInstancesVisible`. -/
def setInstancesVisible (w : World) (vis : Bool) : World :=
  { w with layer := { w.layer with m_instances_visibility := vis } }

/-- The function `Layer::toggleInstancesVisible`. -/
def toggleInstancesVisible (w : World) : World :=
  { w with layer := { w.layer with m_instances_visibility := !w.layer.m_instances_visibility } }

/-- The instance loop of `update`: each instance from the iterator on is
updated; one that reports a change is pushed on `m_changedinstances` and sets
`m_changed`. -/
def update.instanceLoop (upd : InstanceUpdate) (curticks : Nat) :
    List InstancePtr → World → World
  | [], w => w
  | it :: rest, w =>
    let w1 : World :=
      { w with heap := Function.update w.heap it ((w.heap it).map (upd.effect curticks it)) }
    let w2 : World :=
      if upd.result curticks it ≠ ICHANGE_NO_CHANGES then
        { w1 with layer := { w1.layer with
            m_changedinstances := w1.layer.m_changedinstances ++ [it]
            m_changed := true } }
      else w1
    update.instanceLoop upd curticks rest w2

/-- The listener loop of `update`: `onLayerChanged(this, m_changedinstances)`
on each listener from `i` to the end of `m_changelisteners`. -/
def update.notifyLoop : List ListenerPtr → World → World
  | [], w => w
  | i :: rest, w =>
    update.notifyLoop rest
      (w.call i (Callback.onLayerChanged w.layer.thisPtr w.layer.m_changedinstances))

/-- The function `Layer::update()`; `curticks` is the value of `SDL_GetTicks()`
and `upd` what the update routines of the instances do in this pass. Returns
the value returned by the function and the state it leaves. -/
def update (w : World) (curticks : Nat) (upd : InstanceUpdate) : Bool × World :=
  let w1 : World := { w with layer := { w.layer with m_changedinstances := [] } }
  let w2 := update.instanceLoop upd curticks w1.layer.m_instances w1
  let w3 :=
    if w2.layer.m_changedinstances ≠ [] then
      update.notifyLoop w2.layer.m_changelisteners w2
    else w2
  let retval := w3.layer.m_changed
  (retval, { w3 with layer := { w3.layer with m_changed := false } })

/-- The function `Layer::addChangeListener`. -/
def addChangeListener (w : World) (listener : ListenerPtr) : World :=
  { w with layer := { w.layer with m_changelisteners := w.layer.m_changelisteners ++ [listener] } }

/-- The loop of `removeChangeListener`: `before` are the listeners already
passed, `i :: rest` those from the iterator on; the first one equal to
`listener` is erased and the function returns. -/
def removeChangeListener.loop (listener : ListenerPtr) :
    List ListenerPtr → List ListenerPtr → World → World
  | _, [], w => w
  | before, i :: rest, w =>
    if i = listener then
      { w with layer := { w.layer with m_changelisteners := before ++ rest } }
    else
      removeChangeListener.loop listener (before ++ [i]) rest w

/-- The function `Layer::removeChangeListener`. -/
def removeChangeListener (w : World) (listener : ListenerPtr) : World :=
  removeChangeListener.loop listener [] w.layer.m_changelisteners w

end Layer

/-! ## Derived notions -/

/-- The instances of `l` that report a change in the pass `upd` at `curticks`. -/
def changedOf (upd : InstanceUpdate) (curticks : Nat) (l : List InstancePtr) :
    List InstancePtr :=
  l.filter (fun i => decide (upd.result curticks i ≠ ICHANGE_NO_CHANGES))

/-- Registration of the listeners `ls`, one `addChangeListener` call each, in
the order of the list. -/
def registerListeners (w : World) (ls : List ListenerPtr) : World :=
  ls.foldl Layer.addChangeListener w

/-- The listener called and the callback made, for each event. -/
def callsOf (es : List Event) : List (ListenerPtr × Callback) :=
  es.map (fun e => (e.listener, e.call))

/-! ## States a layer can be in -/

/-- The states reachable from a freshly constructed layer by calls of its
member functions. The store at construction time is arbitrary (it may hold the
instances of other layers); the allocator hands out an address that is not
live. -/
inductive Reachable : World → Prop where
  | construct (thisPtr : LayerPtr) (identifier : String) (map : MapPtr) (grid : CellGrid)
      (heap : Heap) :
      Reachable ⟨Layer.construct thisPtr identifier map grid, heap, []⟩
  | createInstance {w : World} (h : Reachable w) (addr : InstancePtr) (object : ObjectPtr)
      (p : ExactModelCoordinate) (id : String) (fresh : w.heap addr = none) :
      Reachable (Layer.createInstance w addr object p id).2
  | deleteInstance {w : World} (h : Reachable w) (inst : InstancePtr) :
      Reachable (Layer.deleteInstance w inst)
  | update {w : World} (h : Reachable w) (curticks : Nat) (upd : InstanceUpdate) :
      Reachable (Layer.update w curticks upd).2
  | addChangeListener {w : World} (h : Reachable w) (listener : ListenerPtr) :
      Reachable (Layer.addChangeListener w listener)
  | removeChangeListener {w : World} (h : Reachable w) (listener : ListenerPtr) :
      Reachable (Layer.removeChangeListener w listener)

/-- The owned instances are pairwise distinct live objects and the index holds
exactly them, in the same order. -/
structure Consistent (w : World) : Prop where
  nodup : w.layer.m_instances.Nodup
  live : ∀ i ∈ w.layer.m_instances, w.heap i ≠ none
  index : w.layer.m_instanceTree.instances = w.layer.m_instances

/-! ## Sample data -/

/-- A grid whose cells are the unit squares. -/
def unitGrid : CellGrid := ⟨fun e => ⟨e.x.floor, e.y.floor, e.z.floor⟩⟩

/-- A store with one live object, at address 555: an instance that belongs to
another layer, the one at address 2. -/
def otherLayerHeap : Heap :=
  fun a => if a = 555 then some (Instance.create 5 ⟨some 2, ⟨4, 4, 0⟩⟩ "elsewhere") else none

/-- A freshly constructed layer at address 1; the only live instance, 555,
belongs to another layer. -/
def freshWorld : World := ⟨Layer.construct 1 "ground" 9 unitGrid, otherLayerHeap, []⟩

/-- The fresh layer with listeners 70 and 71 registered, in this order. -/
def listenedWorld : World :=
  Layer.addChangeListener (Layer.addChangeListener freshWorld 70) 71

/-- The listened layer after creating instances at addresses 100 and 101. -/
def twoInstanceWorld : World :=
  (Layer.createInstance (Layer.createInstance listenedWorld 100 5 ⟨2, 3, 0⟩ "e1").2
    101 6 ⟨2, 3, 0⟩ "e2").2

/-- An update pass in which exactly the instance at address 101 reports a
change (mask 1) and no instance is modified. -/
def sampleUpdate : InstanceUpdate :=
  ⟨fun _ i => if i = 101 then 1 else ICHANGE_NO_CHANGES, fun _ _ obj => obj⟩

/-- An update pass in which no instance reports a change. -/
def quietUpdate : InstanceUpdate :=
  ⟨fun _ _ => ICHANGE_NO_CHANGES, fun _ _ obj => obj⟩

/-- The fresh layer after creating one instance at address 101. -/
def ownerWorld : World :=
  (Layer.createInstance freshWorld 101 6 ⟨2, 3, 0⟩ "e2").2

/-! ## Strings and formatted extraction (C++ standard library)

A `std::string` is read as its list of characters. `size_t` is taken 64 bits
wide; only the wrap-around of `npos + 1` to 0 depends on it, and that holds at
every width. -/

namespace Cxx

/-- The value `std::string::npos`, the largest `size_t`. -/
def npos : Nat := 2 ^ 64 - 1

/-- Addition of `size_t` values, modulo 2^64. -/
def sizeAdd (a b : Nat) : Nat := (a + b) % 2 ^ 64

/-- The call `s.find(ch)`: the index of the first occurrence of `ch`, or `npos`
when there is none. -/
def find : List Char → Char → Nat
  | [], _ => npos
  | c :: cs, ch => if c = ch then 0 else if find cs ch = npos then npos else find cs ch + 1

/-- The call `s.substr(pos, n)`: the characters from index `pos` on, at most
`n` of them; it throws `std::out_of_range` (here `none`) when `pos` is beyond
the end. -/
def substr (s : List Char) (pos n : Nat) : Option (List Char) :=
  if pos > s.length then none else some ((s.drop pos).take n)

/-- The function `isspace` in the "C" locale: space, tab, line feed, vertical
tab, form feed, carriage return. -/
def isspace (c : Char) : Bool :=
  c = Char.ofNat 32 || c = Char.ofNat 9 || c = Char.ofNat 10 || c = Char.ofNat 11 ||
    c = Char.ofNat 12 || c = Char.ofNat 13

/-- The largest `int`. -/
def INT_MAX : Int := 2 ^ 31 - 1

/-- The smallest `int`. -/
def INT_MIN : Int := -(2 ^ 31)

/-- The number written by a sequence of decimal digits. -/
def digitsValue (ds : List Char) : Nat :=
  ds.foldl (fun acc c => 10 * acc + (c.toNat - 48)) 0

/-- The sign of an input field and the characters after the sign: a leading
minus or plus sign is consumed. -/
def splitSign : List Char → Bool × List Char
  | '-' :: rest => (true, rest)
  | '+' :: rest => (false, rest)
  | s => (false, s)

/-- The value stored by `stream >> n` for an `int n` that holds 0, on a fresh
`std::istringstream` over `s`: leading white space is skipped, then an optional
sign and the longest run of decimal digits are read. Without a digit the
extraction fails and `n` is 0; a value outside the range of `int` is stored as
the nearest bound. -/
def extractInt (s : List Char) : Int :=
  let field := splitSign (s.dropWhile isspace)
  let ds := field.2.takeWhile Char.isDigit
  if ds = [] then 0
  else
    let v : Int := if field.1 then -(digitsValue ds : Int) else (digitsValue ds : Int)
    if v > INT_MAX then INT_MAX else if v < INT_MIN then INT_MIN else v

end Cxx

/-- The function `parse_point(value)`: `none` when a `substr` call throws. -/
def parse_point (value : String) : Option ModelCoordinate :=
  let delim := Cxx.find value.toList ','
  match Cxx.substr value.toList 0 delim,
      Cxx.substr value.toList (Cxx.sizeAdd delim 1) value.toList.length with
  | some strx, some stry =>
    let pt : ModelCoordinate := ⟨0, 0, 0⟩
    let pt := { pt with x := Cxx.extractInt strx }
    let pt := { pt with y := Cxx.extractInt stry }
    some pt
  | _, _ => none

/-! ## Queries of `Layer` -/

/-- What the queries of a layer read from classes whose code is outside
layer.cpp: whether a template is blocking (`Object::isBlocking`), and the cell
of a location in the coordinate space of a layer when another layer than the
one at hand is involved (conversion between two grids). -/
structure Collaborators where
  isBlocking : ObjectPtr → Bool
  foreign : Location → Option LayerPtr → ModelCoordinate

/-- Modelled from the spec: `Location::getLayerCoordinates(layer)` as seen from
the layer `self`. For a location on `self`, asked in the space of `self`, it is
the cell view through the grid of `self`; every other case involves another
layer and is answered by the collaborators. -/
def Location.getLayerCoordinatesOn (self : Layer) (ext : Collaborators) (l : Location)
    (layer : Option LayerPtr) : ModelCoordinate :=
  if l.m_layer = some self.thisPtr ∧ layer = some self.thisPtr then
    l.getLayerCoordinates self.m_grid
  else ext.foreign l layer

/-- Modelled from the spec: `InstanceTree::findInstances(point, w, h, list)`
yields the instances whose occupied cell lies in the inclusive window of radius
`(w, h)` around `point`, in insertion order. -/
def InstanceTree.findInstances (t : InstanceTree) (point : ModelCoordinate) (w h : Int) :
    List InstancePtr :=
  (t.entries.filter (fun e =>
    decide (point.x - w ≤ e.1.x ∧ e.1.x ≤ point.x + w ∧
      point.y - h ≤ e.1.y ∧ e.1.y ≤ point.y + h))).map Prod.snd

namespace Layer

/-- The first loop of `getInstances(field, value)`, for the field "loc": an
instance from the iterator on whose cell on this layer equals `pt` is pushed on
`result`. Reading through a pointer to no live object is `none`. -/
def getInstancesBy.locLoop (w : World) (ext : Collaborators) (pt : ModelCoordinate) :
    List InstancePtr → List InstancePtr → Option (List InstancePtr)
  | [], result => some result
  | it :: rest, result =>
    match w.heap it with
    | none => none
    | some obj =>
      let loc := obj.getLocationRef
      if loc.getLayerCoordinatesOn w.layer ext (some w.layer.thisPtr) = pt then
        getInstancesBy.locLoop w ext pt rest (result ++ [it])
      else
        getInstancesBy.locLoop w ext pt rest result

/-- The second loop of `getInstances(field, value)`: an instance from the
iterator on whose attribute `field` equals `value` is pushed on `result`. -/
def getInstancesBy.fieldLoop (w : World) (field value : String) :
    List InstancePtr → List InstancePtr → Option (List InstancePtr)
  | [], result => some result
  | it :: rest, result =>
    match w.heap it with
    | none => none
    | some obj =>
      if obj.get field = value then
        getInstancesBy.fieldLoop w field value rest (result ++ [it])
      else
        getInstancesBy.fieldLoop w field value rest result

/-- The function `Layer::getInstances(field, value)`: the vector it returns and
the state it leaves, or `none` when it throws or reads through a pointer to no
live object. -/
def getInstancesBy (w : World) (ext : Collaborators) (field value : String) :
    Option (List InstancePtr × World) :=
  if field = "loc" then
    match parse_point value with
    | none => none
    | some pt =>
      match getInstancesBy.locLoop w ext pt w.layer.m_instances [] with
      | none => none
      | some result => some (result, w)
  else
    match getInstancesBy.fieldLoop w field value w.layer.m_instances [] with
    | none => none
    | some result => some (result, w)

/-- The loop of `getMinMaxCoordinates`: the cell of each instance from the
iterator on widens `min` and `max` in x and in y. -/
def getMinMaxCoordinates.loop (w : World) (ext : Collaborators) (layer : Option LayerPtr) :
    List InstancePtr → ModelCoordinate → ModelCoordinate →
      Option (ModelCoordinate × ModelCoordinate)
  | [], min, max => some (min, max)
  | i :: rest, min, max =>
    match w.heap i with
    | none => none
    | some obj =>
      let coord := obj.getLocationRef.getLayerCoordinatesOn w.layer ext layer
      let min1 := if coord.x < min.x then { min with x := coord.x } else min
      let max1 := if coord.x > max.x then { max with x := coord.x } else max
      let min2 := if coord.y < min1.y then { min1 with y := coord.y } else min1
      let max2 := if coord.y > max1.y then { max1 with y := coord.y } else max1
      getMinMaxCoordinates.loop w ext layer rest min2 max2

/-- The function `Layer::getMinMaxCoordinates(min, max, layer)`, with `none`
for a null `layer`: the values it leaves in `min` and `max`, or `none` when the
vector is empty (`front()` on an empty vector) or a pointer is not live. -/
def getMinMaxCoordinates (w : World) (ext : Collaborators) (layer : Option LayerPtr) :
    Option (ModelCoordinate × ModelCoordinate) :=
  let layer1 := if layer = none then some w.layer.thisPtr else layer
  match w.layer.m_instances with
  | [] => none
  | front :: _ =>
    match w.heap front with
    | none => none
    | some obj =>
      let min := obj.getLocationRef.getLayerCoordinatesOn w.layer ext layer1
      let max := min
      getMinMaxCoordinates.loop w ext layer1 w.layer.m_instances min max

/-- The loop of `cellContainsBlockingInstance` over the instances the index
returned. -/
def cellContainsBlockingInstance.loop (w : World) (ext : Collaborators)
    (cellCoordinate : ModelCoordinate) : List InstancePtr → Bool → Option Bool
  | [], blockingInstance => some blockingInstance
  | j :: rest, blockingInstance =>
    match w.heap j with
    | none => none
    | some obj =>
      if ext.isBlocking obj.getObject = true ∧
          obj.getLocationRef.getLayerCoordinatesOn w.layer ext obj.getLocationRef.getLayer
            = cellCoordinate then
        cellContainsBlockingInstance.loop w ext cellCoordinate rest true
      else
        cellContainsBlockingInstance.loop w ext cellCoordinate rest blockingInstance

/-- The function `Layer::cellContainsBlockingInstance(cellCoordinate)`. -/
def cellContainsBlockingInstance (w : World) (ext : Collaborators)
    (cellCoordinate : ModelCoordinate) : Option Bool :=
  let adjacentInstances := w.layer.m_instanceTree.findInstances cellCoordinate 0 0
  let blockingInstance := false
  cellContainsBlockingInstance.loop w ext cellCoordinate adjacentInstances blockingInstance

end Layer

/-! ## The class `Map` (engine/core/model/structures/map.h) -/

/-- Address of a `MapChangeListener` object. -/
abbrev MapListenerPtr := Nat

/-- Address of a `Dataset` object. -/
abbrev DatasetPtr := Nat

/-- The members of class `Map`; of the owned `TimeProvider` only the multiplier
is kept. -/
structure Map where
  m_id : String
  m_mapname : String
  m_datasets : List DatasetPtr
  m_layers : List LayerPtr
  m_timeprovider : Rat
  m_changelisteners : List MapListenerPtr
  m_changedlayers : List LayerPtr
  m_changed : Bool
  deriving DecidableEq, Repr

namespace Map

/-- The function `Map::getLayers()` returning the vector of layers. -/
def getLayers (m : Map) : List LayerPtr := m.m_layers

/-- The function `Map::isChanged()`: the value returned and the map it
leaves. -/
def isChanged (m : Map) : Bool × Map := (!m.m_changedlayers.isEmpty, m)

/-- The function `Map::getChangedLayers()`. -/
def getChangedLayers (m : Map) : List LayerPtr := m.m_changedlayers

end Map

/-! ## States reached by creating and deleting instances -/

/-- The states reached from a freshly constructed layer by `createInstance` and
`deleteInstance` calls (listeners may be added and removed in between); the
allocator hands out an address that is not live. -/
inductive CreateDeleteReachable : World → Prop where
  | construct (thisPtr : LayerPtr) (identifier : String) (map : MapPtr) (grid : CellGrid)
      (heap : Heap) :
      CreateDeleteReachable ⟨Layer.construct thisPtr identifier map grid, heap, []⟩
  | createInstance {w : World} (h : CreateDeleteReachable w) (addr : InstancePtr)
      (object : ObjectPtr) (p : ExactModelCoordinate) (id : String)
      (fresh : w.heap addr = none) :
      CreateDeleteReachable (Layer.createInstance w addr object p id).2
  | deleteInstance {w : World} (h : CreateDeleteReachable w) (inst : InstancePtr) :
      CreateDeleteReachable (Layer.deleteInstance w inst)
  | addChangeListener {w : World} (h : CreateDeleteReachable w) (listener : ListenerPtr) :
      CreateDeleteReachable (Layer.addChangeListener w listener)
  | removeChangeListener {w : World} (h : CreateDeleteReachable w) (listener : ListenerPtr) :
      CreateDeleteReachable (Layer.removeChangeListener w listener)

/-- The cell an owned instance occupies: the cell view of its location through
the grid of the layer. -/
def cellOf (w : World) (obj : Instance) : ModelCoordinate :=
  obj.getLocationRef.getLayerCoordinates w.layer.m_grid

/-- The index is consistent with the instance sequence: every owned instance is
a live object located on this layer, and the entries of the index are exactly
the owned instances, each under the cell it occupies now. -/
structure IndexInSync (w : World) : Prop where
  owned : ∀ i ∈ w.layer.m_instances, ∃ obj, w.heap i = some obj ∧
    obj.getLocationRef.getLayer = some w.layer.thisPtr
  entries : ∀ (c : ModelCoordinate) (i : InstancePtr),
    (c, i) ∈ w.layer.m_instanceTree.entries ↔
      i ∈ w.layer.m_instances ∧ ∃ obj, w.heap i = some obj ∧ cellOf w obj = c

/-! ## Notions used to state the queries -/

/-- The cell on this layer of the instance at address `i`, what
`getLocationRef().getLayerCoordinates(this)` gives for it, when `i` is live. -/
def cellOnLayer (w : World) (ext : Collaborators) (i : InstancePtr) : Option ModelCoordinate :=
  (w.heap i).map (fun obj =>
    obj.getLocationRef.getLayerCoordinatesOn w.layer ext (some w.layer.thisPtr))

/-- The value of the attribute `field` of the instance at address `i`, when `i`
is live. -/
def attributeOf (w : World) (i : InstancePtr) (field : String) : Option String :=
  (w.heap i).map (fun obj => obj.get field)

/-- The state in which every live instance carries the attribute bag `g` assigns
to its address, everything else being as in `w`. -/
def World.withFields (w : World) (g : InstancePtr → List (String × String)) : World :=
  { w with heap := fun i => (w.heap i).map (fun obj => { obj with m_fields := g i }) }

/-- Whether the text begins with a number: after leading white space and an
optional sign comes a decimal digit. -/
def Cxx.startsWithInt (s : List Char) : Bool :=
  match (Cxx.splitSign (s.dropWhile Cxx.isspace)).2 with
  | [] => false
  | c :: _ => c.isDigit

/-! ## Sample data for the queries -/

/-- Collaborators for the samples: only the template at address 6 is blocking. -/
def sampleExt : Collaborators := ⟨fun o => decide (o = 6), fun _ _ => ⟨0, 0, 0⟩⟩

/-- An update pass that sets the attribute "kind" of the instance at address
101 to "tree" and reports no change. -/
def tagUpdate : InstanceUpdate :=
  ⟨fun _ _ => ICHANGE_NO_CHANGES, fun _ i obj => if i = 101 then obj.set "kind" "tree" else obj⟩

/-- The layer owning 100 and 101, both at cell (2, 3), after 101 got the
attribute "kind" with value "tree". -/
def taggedWorld : World := (Layer.update twoInstanceWorld 40 tagUpdate).2

/-- The fresh layer after creating instances 100, 101, 102 at the cells (0, 0),
(5, 5) and (-2, 3). -/
def boxWorld : World :=
  (Layer.createInstanceAtCell
    (Layer.createInstanceAtCell
      (Layer.createInstanceAtCell freshWorld 100 5 ⟨0, 0, 0⟩ "a").2 101 5 ⟨5, 5, 0⟩ "b").2
    102 5 ⟨-2, 3, 0⟩ "c").2

/-- The fresh layer after the listener 70 was registered twice. -/
def doubleListenedWorld : World :=
  Layer.addChangeListener (Layer.addChangeListener freshWorld 70) 70

/-- The fresh layer after creating instances 100, 101, 102 at the cells
(0, 0, 7), (5, 5, 1) and (-2, 3, 9). -/
def towerWorld : World :=
  (Layer.createInstanceAtCell
    (Layer.createInstanceAtCell
      (Layer.createInstanceAtCell freshWorld 100 5 ⟨0, 0, 7⟩ "a").2 101 5 ⟨5, 5, 1⟩ "b").2
    102 5 ⟨-2, 3, 9⟩ "c").2

/-! ## Listeners that call back into the layer

The member functions above take the listeners to be passive: a callback is
recorded and leaves the layer alone. A listener holds a pointer to the layer,
though, and may call its member functions from within a callback, while the
loops of `createInstance`, `deleteInstance` and `update` walk the member
`m_changelisteners` itself, with `end()` evaluated anew in each round. The
functions below embed the three member functions with such listeners. An
iterator into the vector is the position it points at. -/

/-- What the listeners do to the layer and to the instance store when a
callback is made on them. -/
structure Reaction where
  run : ListenerPtr → Callback → Layer → Heap → Layer × Heap

/-- Listeners that leave the layer and the store alone. -/
def Reaction.passive : Reaction := ⟨fun _ _ layer heap => (layer, heap)⟩

/-- No callback adds or removes a listener of the layer: every reaction leaves
the listener list as it was. -/
def Reaction.KeepsListeners (react : Reaction) : Prop :=
  ∀ (listener : ListenerPtr) (cb : Callback) (layer : Layer) (heap : Heap),
    (react.run listener cb layer heap).1.m_changelisteners = layer.m_changelisteners

/-- A virtual call of callback `cb` on `listener`: the call is recorded with the
current state, then the listener does what it does. The layer object stays at
its address. -/
def World.callWith (w : World) (react : Reaction) (listener : ListenerPtr) (cb : Callback) :
    World :=
  let w1 := w.call listener cb
  { w1 with
    layer := { (react.run listener cb w1.layer w1.heap).1 with thisPtr := w1.layer.thisPtr }
    heap := (react.run listener cb w1.layer w1.heap).2 }

namespace Layer

/-- The listener loop shared by the three member functions, `cb` giving the
callback each of them makes: `while (i != m_changelisteners.end())` the
listener at position `i` is called and `i` is advanced. The list is read anew
in each round. Reading at a position beyond the end is `none`, as is running
out of `fuel` rounds. -/
def fanOut (react : Reaction) (cb : World → Callback) : Nat → Nat → World → Option World
  | 0, _, _ => none
  | fuel + 1, i, w =>
    if i = w.layer.m_changelisteners.length then some w
    else
      match w.layer.m_changelisteners[i]? with
      | none => none
      | some listener => fanOut react cb fuel (i + 1) (w.callWith react listener (cb w))

/-- The function `Layer::createInstance(object, p, id)` with listeners that may
call back into the layer; `fuel` bounds the rounds of the listener loop. -/
def createInstanceLive (react : Reaction) (fuel : Nat) (w : World) (addr : InstancePtr)
    (object : ObjectPtr) (p : ExactModelCoordinate) (id : String) :
    Option (InstancePtr × World) :=
  let l := (Location.init.setLayer w.layer.thisPtr).setExactLayerCoordinates p
  let obj := Instance.create object l id
  let inst := addr
  let w1 : World := { w with heap := Function.update w.heap inst (some obj) }
  let w2 : World :=
    { w1 with layer := { w1.layer with m_instances := w1.layer.m_instances ++ [inst] } }
  let w3 : World :=
    { w2 with layer := { w2.layer with
        m_instanceTree := w2.layer.m_instanceTree.addInstance w2.layer.m_grid inst obj } }
  match fanOut react (fun v => Callback.onInstanceCreate v.layer.thisPtr inst) fuel 0 w3 with
  | none => none
  | some w4 => some (inst, { w4 with layer := { w4.layer with m_changed := true } })

/-- The function `Layer::deleteInstance(instance)` with listeners that may call
back into the layer. -/
def deleteInstanceLive (react : Reaction) (fuel : Nat) (w : World) (inst : InstancePtr) :
    Option World :=
  match fanOut react (fun v => Callback.onInstanceDelete v.layer.thisPtr inst) fuel 0 w with
  | none => none
  | some w1 =>
    let w2 := deleteInstance.eraseLoop inst [] w1.layer.m_instances w1
    some { w2 with layer := { w2.layer with m_changed := true } }

/-- The function `Layer::update()` with listeners that may call back into the
layer. -/
def updateLive (react : Reaction) (fuel : Nat) (w : World) (curticks : Nat)
    (upd : InstanceUpdate) : Option (Bool × World) :=
  let w1 : World := { w with layer := { w.layer with m_changedinstances := [] } }
  let w2 := update.instanceLoop upd curticks w1.layer.m_instances w1
  let r :=
    if w2.layer.m_changedinstances ≠ [] then
      fanOut react
        (fun v => Callback.onLayerChanged v.layer.thisPtr v.layer.m_changedinstances) fuel 0 w2
    else some w2
  match r with
  | none => none
  | some w3 =>
    let retval := w3.layer.m_changed
    some (retval, { w3 with layer := { w3.layer with m_changed := false } })

end Layer

/-- The listener 70 unregisters itself, by `removeChangeListener(this)`, in
every callback made on it; the other listeners are passive. -/
def selfRemoving : Reaction :=
  ⟨fun listener _ layer heap =>
    if listener = 70 then ((Layer.removeChangeListener ⟨layer, heap, []⟩ 70).layer, heap)
    else (layer, heap)⟩

/-- Every listener hides the instances of the layer, by
`setInstancesVisible(false)`, in every callback made on it. -/
def hidingInstances : Reaction :=
  ⟨fun _ _ layer heap => ((Layer.setInstancesVisible ⟨layer, heap, []⟩ false).layer, heap)⟩

/-! # Theorems -/

/-! ## The listener loops -/

theorem createInstance_notifyLoop_eq (inst : InstancePtr) (ls : List ListenerPtr) (w : World) :
    Layer.createInstance.notifyLoop inst ls w =
      { w with log := w.log ++ ls.map (fun l =>
          ⟨l, Callback.onInstanceCreate w.layer.thisPtr inst, w.layer, w.heap⟩) } := by
  induction ls generalizing w with
  | nil => simp [Layer.createInstance.notifyLoop]
  | cons l ls ih => simp [Layer.createInstance.notifyLoop, ih, World.call]

theorem deleteInstance_notifyLoop_eq (inst : InstancePtr) (ls : List ListenerPtr) (w : World) :
    Layer.deleteInstance.notifyLoop inst ls w =
      { w with log := w.log ++ ls.map (fun l =>
          ⟨l, Callback.onInstanceDelete w.layer.thisPtr inst, w.layer, w.heap⟩) } := by
  induction ls generalizing w with
  | nil => simp [Layer.deleteInstance.notifyLoop]
  | cons l ls ih => simp [Layer.deleteInstance.notifyLoop, ih, World.call]

theorem update_notifyLoop_eq (ls : List ListenerPtr) (w : World) :
    Layer.update.notifyLoop ls w =
      { w with log := w.log ++ ls.map (fun l =>
          ⟨l, Callback.onLayerChanged w.layer.thisPtr w.layer.m_changedinstances,
            w.layer, w.heap⟩) } := by
  induction ls generalizing w with
  | nil => simp [Layer.update.notifyLoop]
  | cons l ls ih => simp [Layer.update.notifyLoop, ih, World.call]

/-! ## The search loop of `deleteInstance` -/

theorem eraseLoop_not_mem (inst : InstancePtr) (before rest : List InstancePtr) (w : World)
    (h : inst ∉ rest) : Layer.deleteInstance.eraseLoop inst before rest w = w := by
  induction rest generalizing before with
  | nil => simp [Layer.deleteInstance.eraseLoop]
  | cons x xs ih =>
    have hx : x ≠ inst := fun e => h (by simp [e])
    have hxs : inst ∉ xs := fun e => h (by simp [e])
    simp [Layer.deleteInstance.eraseLoop, hx, ih _ hxs]

theorem eraseLoop_mem (inst : InstancePtr) (before rest : List InstancePtr) (w : World)
    (h : inst ∈ rest) :
    Layer.deleteInstance.eraseLoop inst before rest w =
      { w with
        layer := { w.layer with
          m_instanceTree := w.layer.m_instanceTree.removeInstance inst
          m_instances := before ++ rest.erase inst }
        heap := Function.update w.heap inst none } := by
  induction rest generalizing before with
  | nil => simp at h
  | cons x xs ih =>
    by_cases hx : x = inst
    · subst hx
      simp [Layer.deleteInstance.eraseLoop]
    · have hxs : inst ∈ xs := by
        rcases List.mem_cons.mp h with e | e
        · exact absurd e.symm hx
        · exact e
      simp [Layer.deleteInstance.eraseLoop, hx, ih _ hxs, List.erase_cons_tail,
        List.append_assoc]

/-! ## The instance loop of `update` -/

theorem instanceLoop_layer (upd : InstanceUpdate) (curticks : Nat) (l : List InstancePtr)
    (w : World) :
    (Layer.update.instanceLoop upd curticks l w).layer =
      { w.layer with
        m_changedinstances := w.layer.m_changedinstances ++ changedOf upd curticks l
        m_changed := w.layer.m_changed || decide (changedOf upd curticks l ≠ []) } := by
  induction l generalizing w with
  | nil => simp [Layer.update.instanceLoop, changedOf]
  | cons x xs ih =>
    by_cases hx : upd.result curticks x = ICHANGE_NO_CHANGES
    · simp [Layer.update.instanceLoop, ih, changedOf, hx]
    · simp [Layer.update.instanceLoop, ih, changedOf, hx]

theorem instanceLoop_log (upd : InstanceUpdate) (curticks : Nat) (l : List InstancePtr)
    (w : World) : (Layer.update.instanceLoop upd curticks l w).log = w.log := by
  induction l generalizing w with
  | nil => simp [Layer.update.instanceLoop]
  | cons x xs ih =>
    by_cases hx : upd.result curticks x = ICHANGE_NO_CHANGES
    · simp [Layer.update.instanceLoop, ih, hx]
    · simp [Layer.update.instanceLoop, ih, hx]

theorem instanceLoop_live (upd : InstanceUpdate) (curticks : Nat) (l : List InstancePtr)
    (w : World) (a : InstancePtr) :
    (Layer.update.instanceLoop upd curticks l w).heap a = none ↔ w.heap a = none := by
  induction l generalizing w with
  | nil => simp [Layer.update.instanceLoop]
  | cons x xs ih =>
    have key : (Function.update w.heap x ((w.heap x).map (upd.effect curticks x))) a = none ↔
        w.heap a = none := by
      by_cases hax : a = x
      · subst hax; simp
      · simp [Function.update_noteq hax]
    by_cases hx : upd.result curticks x = ICHANGE_NO_CHANGES
    · simp only [Layer.update.instanceLoop, hx, ne_eq, not_true_eq_false, if_false]
      rw [ih]; exact key
    · simp only [Layer.update.instanceLoop, hx, ne_eq, not_false_eq_true, if_true]
      rw [ih]; exact key

/-! ## The member functions in closed form -/

theorem createInstance_eq (w : World) (addr : InstancePtr) (object : ObjectPtr)
    (p : ExactModelCoordinate) (id : String) :
    Layer.createInstance w addr object p id =
      (addr,
        { layer := { w.layer with
            m_instances := w.layer.m_instances ++ [addr]
            m_instanceTree := w.layer.m_instanceTree.addInstance w.layer.m_grid addr
              (Instance.create object ⟨some w.layer.thisPtr, p⟩ id)
            m_changed := true }
          heap := Function.update w.heap addr
            (some (Instance.create object ⟨some w.layer.thisPtr, p⟩ id))
          log := w.log ++ w.layer.m_changelisteners.map (fun l =>
            ⟨l, Callback.onInstanceCreate w.layer.thisPtr addr,
              { w.layer with
                m_instances := w.layer.m_instances ++ [addr]
                m_instanceTree := w.layer.m_instanceTree.addInstance w.layer.m_grid addr
                  (Instance.create object ⟨some w.layer.thisPtr, p⟩ id) },
              Function.update w.heap addr
                (some (Instance.create object ⟨some w.layer.thisPtr, p⟩ id))⟩) }) := by
  simp [Layer.createInstance, createInstance_notifyLoop_eq, Location.init, Location.setLayer,
    Location.setExactLayerCoordinates]

theorem deleteInstance_eq_of_not_mem (w : World) (inst : InstancePtr)
    (h : inst ∉ w.layer.m_instances) :
    Layer.deleteInstance w inst =
      { layer := { w.layer with m_changed := true }
        heap := w.heap
        log := w.log ++ w.layer.m_changelisteners.map (fun l =>
          ⟨l, Callback.onInstanceDelete w.layer.thisPtr inst, w.layer, w.heap⟩) } := by
  simp [Layer.deleteInstance, deleteInstance_notifyLoop_eq, eraseLoop_not_mem, h]

theorem deleteInstance_eq_of_mem (w : World) (inst : InstancePtr)
    (h : inst ∈ w.layer.m_instances) :
    Layer.deleteInstance w inst =
      { layer := { w.layer with
          m_instanceTree := w.layer.m_instanceTree.removeInstance inst
          m_instances := w.layer.m_instances.erase inst
          m_changed := true }
        heap := Function.update w.heap inst none
        log := w.log ++ w.layer.m_changelisteners.map (fun l =>
          ⟨l, Callback.onInstanceDelete w.layer.thisPtr inst, w.layer, w.heap⟩) } := by
  simp [Layer.deleteInstance, deleteInstance_notifyLoop_eq, eraseLoop_mem, h]

theorem update_layer (w : World) (curticks : Nat) (upd : InstanceUpdate) :
    (Layer.update w curticks upd).2.layer =
      { w.layer with
        m_changedinstances := changedOf upd curticks w.layer.m_instances
        m_changed := false } := by
  unfold Layer.update
  by_cases hc : changedOf upd curticks w.layer.m_instances = []
  · simp [instanceLoop_layer, update_notifyLoop_eq, hc]
  · simp [instanceLoop_layer, update_notifyLoop_eq, hc]

theorem update_retval (w : World) (curticks : Nat) (upd : InstanceUpdate) :
    (Layer.update w curticks upd).1 =
      (w.layer.m_changed || decide (changedOf upd curticks w.layer.m_instances ≠ [])) := by
  unfold Layer.update
  by_cases hc : changedOf upd curticks w.layer.m_instances = []
  · simp [instanceLoop_layer, update_notifyLoop_eq, hc]
  · simp [instanceLoop_layer, update_notifyLoop_eq, hc]

theorem update_live (w : World) (curticks : Nat) (upd : InstanceUpdate) (a : InstancePtr) :
    (Layer.update w curticks upd).2.heap a = none ↔ w.heap a = none := by
  unfold Layer.update
  by_cases hc : changedOf upd curticks w.layer.m_instances = []
  · simp [instanceLoop_layer, update_notifyLoop_eq, hc, instanceLoop_live]
  · simp [instanceLoop_layer, update_notifyLoop_eq, hc, instanceLoop_live]

theorem removeChangeListener_loop_frame (listener : ListenerPtr)
    (before rest : List ListenerPtr) (w : World) :
    ∃ ls, Layer.removeChangeListener.loop listener before rest w =
      { w with layer := { w.layer with m_changelisteners := ls } } := by
  induction rest generalizing before with
  | nil => exact ⟨w.layer.m_changelisteners, by simp [Layer.removeChangeListener.loop]⟩
  | cons x xs ih =>
    by_cases hx : x = listener
    · exact ⟨before ++ xs, by simp [Layer.removeChangeListener.loop, hx]⟩
    · obtain ⟨ls, hls⟩ := ih (before ++ [x])
      exact ⟨ls, by simp [Layer.removeChangeListener.loop, hx, hls]⟩

/-! ## Consistency of reachable states -/

theorem InstanceTree.instances_removeInstance (t : InstanceTree) (inst : InstancePtr) :
    (t.removeInstance inst).instances = t.instances.filter (fun i => decide (i ≠ inst)) := by
  cases t with
  | mk entries =>
    simp only [InstanceTree.removeInstance, InstanceTree.instances]
    induction entries with
    | nil => rfl
    | cons e es ih =>
      by_cases he : e.2 = inst
      · simpa [List.filter_cons, he] using ih
      · simpa [List.filter_cons, he] using ih

theorem InstanceTree.instances_addInstance (t : InstanceTree) (grid : CellGrid)
    (inst : InstancePtr) (obj : Instance) :
    (t.addInstance grid inst obj).instances = t.instances ++ [inst] := by
  simp [InstanceTree.addInstance, InstanceTree.instances]

theorem consistent_construct (thisPtr : LayerPtr) (identifier : String) (map : MapPtr)
    (grid : CellGrid) (heap : Heap) :
    Consistent ⟨Layer.construct thisPtr identifier map grid, heap, []⟩ :=
  ⟨by simp [Layer.construct], by simp [Layer.construct],
    by simp [Layer.construct, InstanceTree.empty, InstanceTree.instances]⟩

theorem consistent_createInstance {w : World} (hw : Consistent w) (addr : InstancePtr)
    (object : ObjectPtr) (p : ExactModelCoordinate) (id : String) (fresh : w.heap addr = none) :
    Consistent (Layer.createInstance w addr object p id).2 := by
  have hnot : addr ∉ w.layer.m_instances := fun hmem => hw.live addr hmem fresh
  rw [createInstance_eq]
  refine ⟨?_, ?_, ?_⟩
  · simpa [List.nodup_append] using And.intro hw.nodup hnot
  · intro i hi
    by_cases hia : i = addr
    · subst hia; simp
    · have hi' : i ∈ w.layer.m_instances := by simpa [hia] using hi
      simpa [Function.update_noteq hia] using hw.live i hi'
  · simp [InstanceTree.instances_addInstance, hw.index]

theorem consistent_deleteInstance {w : World} (hw : Consistent w) (inst : InstancePtr) :
    Consistent (Layer.deleteInstance w inst) := by
  by_cases hmem : inst ∈ w.layer.m_instances
  · rw [deleteInstance_eq_of_mem w inst hmem]
    refine ⟨hw.nodup.erase inst, ?_, ?_⟩
    · intro i hi
      have hi' : i ≠ inst ∧ i ∈ w.layer.m_instances := (hw.nodup.mem_erase_iff).mp hi
      simpa [Function.update_noteq hi'.1] using hw.live i hi'.2
    · simp only [InstanceTree.instances_removeInstance, hw.index]
      rw [hw.nodup.erase_eq_filter]
      apply List.filter_congr
      intro x _
      by_cases hx : x = inst <;> simp [hx]
  · rw [deleteInstance_eq_of_not_mem w inst hmem]
    exact ⟨hw.nodup, hw.live, hw.index⟩

theorem consistent_update {w : World} (hw : Consistent w) (curticks : Nat)
    (upd : InstanceUpdate) : Consistent (Layer.update w curticks upd).2 := by
  refine ⟨?_, ?_, ?_⟩
  · rw [update_layer]; exact hw.nodup
  · intro i hi
    rw [update_layer] at hi
    rw [Ne, update_live]
    exact hw.live i hi
  · rw [update_layer]; exact hw.index

theorem consistent_removeChangeListener {w : World} (hw : Consistent w)
    (listener : ListenerPtr) : Consistent (Layer.removeChangeListener w listener) := by
  obtain ⟨ls, hls⟩ := removeChangeListener_loop_frame listener [] w.layer.m_changelisteners w
  unfold Layer.removeChangeListener
  rw [hls]
  exact ⟨hw.nodup, hw.live, hw.index⟩

theorem Reachable.consistent {w : World} (h : Reachable w) : Consistent w := by
  induction h with
  | construct thisPtr identifier map grid heap =>
    exact consistent_construct thisPtr identifier map grid heap
  | createInstance _ addr object p id fresh ih =>
    exact consistent_createInstance ih addr object p id fresh
  | deleteInstance _ inst ih => exact consistent_deleteInstance ih inst
  | update _ curticks upd ih => exact consistent_update ih curticks upd
  | addChangeListener _ listener ih => exact ⟨ih.nodup, ih.live, ih.index⟩
  | removeChangeListener _ listener ih => exact consistent_removeChangeListener ih listener

theorem update_log (w : World) (curticks : Nat) (upd : InstanceUpdate) :
    (Layer.update w curticks upd).2.log =
      w.log ++
        (if changedOf upd curticks w.layer.m_instances ≠ [] then
          w.layer.m_changelisteners.map (fun l =>
            ⟨l, Callback.onLayerChanged w.layer.thisPtr
                (changedOf upd curticks w.layer.m_instances),
              { w.layer with
                m_changedinstances := changedOf upd curticks w.layer.m_instances
                m_changed := true },
              (Layer.update w curticks upd).2.heap⟩)
        else []) := by
  unfold Layer.update
  by_cases hc : changedOf upd curticks w.layer.m_instances = []
  · simp [instanceLoop_layer, instanceLoop_log, update_notifyLoop_eq, hc]
  · simp [instanceLoop_layer, instanceLoop_log, update_notifyLoop_eq, hc]

theorem listenedWorld_reachable : Reachable listenedWorld :=
  Reachable.addChangeListener
    (Reachable.addChangeListener (Reachable.construct 1 "ground" 9 unitGrid otherLayerHeap) 70)
    71

theorem twoInstanceWorld_reachable : Reachable twoInstanceWorld :=
  Reachable.createInstance
    (Reachable.createInstance listenedWorld_reachable 100 5 ⟨2, 3, 0⟩ "e1" rfl)
    101 6 ⟨2, 3, 0⟩ "e2"
    (by simp [createInstance_eq, listenedWorld, Layer.addChangeListener, freshWorld,
      otherLayerHeap])

theorem twoInstanceWorld_instances : Layer.getInstances twoInstanceWorld = [100, 101] := by
  simp [twoInstanceWorld, Layer.getInstances, createInstance_eq, listenedWorld,
    Layer.addChangeListener, freshWorld, Layer.construct]

/-! ## Creation and deletion of instances -/

/-- C1: `createInstance` returns the address of a newly constructed instance
whose location is bound to this layer at the exact position `p` (with the given
template and id); afterwards `getInstances()` is the previous sequence with that
instance appended at the end, no other instance object has been touched, and the
changed flag is set. The returned instance is new: when the allocator hands out
an address that is not live and the owned instances are live, it differs from
every instance owned before. -/
theorem createInstance_appends_new_instance (w : World) (addr : InstancePtr)
    (object : ObjectPtr) (p : ExactModelCoordinate) (id : String) :
    (∃ obj : Instance,
        (Layer.createInstance w addr object p id).2.heap
            (Layer.createInstance w addr object p id).1 = some obj ∧
        obj.getLocationRef.getLayer = some w.layer.thisPtr ∧
        obj.getLocationRef.getExactLayerCoordinates = p ∧
        obj.getObject = object ∧ obj.m_id = id) ∧
    Layer.getInstances (Layer.createInstance w addr object p id).2 =
      Layer.getInstances w ++ [(Layer.createInstance w addr object p id).1] ∧
    (∀ j, j ≠ (Layer.createInstance w addr object p id).1 →
      (Layer.createInstance w addr object p id).2.heap j = w.heap j) ∧
    (Layer.createInstance w addr object p id).2.layer.m_changed = true ∧
    (w.heap addr = none → (∀ j ∈ Layer.getInstances w, w.heap j ≠ none) →
      (Layer.createInstance w addr object p id).1 ∉ Layer.getInstances w) := by
  rw [createInstance_eq]
  refine ⟨⟨Instance.create object ⟨some w.layer.thisPtr, p⟩ id, by simp, rfl, rfl, rfl, rfl⟩,
    rfl, ?_, rfl, ?_⟩
  · intro j hj
    exact Function.update_noteq hj _ _
  · intro hfresh hlive hmem
    exact hlive addr hmem hfresh

/-- Witness for C1 on the layer that owns the live instance 101: the instance
created at the unused address 100 is not among the instances owned before and
comes last afterwards. -/
theorem createInstance_appends_new_instance_witness :
    (Layer.createInstance ownerWorld 100 5 ⟨2, 3, 0⟩ "e1").1 ∉ Layer.getInstances ownerWorld ∧
    Layer.getInstances (Layer.createInstance ownerWorld 100 5 ⟨2, 3, 0⟩ "e1").2 =
      Layer.getInstances ownerWorld ++ [100] :=
  ⟨(createInstance_appends_new_instance ownerWorld 100 5 ⟨2, 3, 0⟩ "e1").2.2.2.2
      (by simp [ownerWorld, createInstance_eq, freshWorld, otherLayerHeap])
      (by simp [ownerWorld, Layer.getInstances, createInstance_eq, freshWorld,
        Layer.construct]),
    (createInstance_appends_new_instance ownerWorld 100 5 ⟨2, 3, 0⟩ "e1").2.1⟩

/-- C2: in a state reachable from a freshly constructed layer, deleting an
instance `i` that is in the layer leaves `getInstances()` equal to the previous
sequence with `i` erased (the other instances keep their relative order), `i` no
longer occurs in it, its length has gone down by exactly one, and the changed
flag is set. -/
theorem deleteInstance_removes_instance (w : World) (hw : Reachable w) (i : InstancePtr)
    (hi : i ∈ Layer.getInstances w) :
    Layer.getInstances (Layer.deleteInstance w i) = (Layer.getInstances w).erase i ∧
    Layer.getInstances (Layer.deleteInstance w i) =
      (Layer.getInstances w).filter (fun j => decide (j ≠ i)) ∧
    i ∉ Layer.getInstances (Layer.deleteInstance w i) ∧
    (Layer.getInstances (Layer.deleteInstance w i)).length + 1 =
      (Layer.getInstances w).length ∧
    (Layer.deleteInstance w i).layer.m_changed = true := by
  have hnd : w.layer.m_instances.Nodup := hw.consistent.nodup
  have hi' : i ∈ w.layer.m_instances := hi
  have hfilter : w.layer.m_instances.erase i =
      w.layer.m_instances.filter (fun j => decide (j ≠ i)) := by
    rw [hnd.erase_eq_filter]
    apply List.filter_congr
    intro x _
    by_cases hx : x = i <;> simp [hx]
  have hlen : (w.layer.m_instances.erase i).length + 1 = w.layer.m_instances.length := by
    rw [List.length_erase_of_mem hi']
    have : 0 < w.layer.m_instances.length := List.length_pos_of_mem hi'
    omega
  rw [deleteInstance_eq_of_mem w i hi']
  exact ⟨rfl, hfilter, hnd.not_mem_erase, hlen, rfl⟩

/-- Witness for C2: deleting the instance at address 100 from the layer that
owns 100 and 101. -/
theorem deleteInstance_removes_instance_witness :
    Reachable twoInstanceWorld ∧ 100 ∈ Layer.getInstances twoInstanceWorld ∧
    Layer.getInstances (Layer.deleteInstance twoInstanceWorld 100) =
      (Layer.getInstances twoInstanceWorld).erase 100 :=
  ⟨twoInstanceWorld_reachable, by simp [twoInstanceWorld_instances],
    (deleteInstance_removes_instance twoInstanceWorld twoInstanceWorld_reachable 100
      (by simp [twoInstanceWorld_instances])).1⟩

/-- C3: index consistency is an invariant. In every state reachable from a
freshly constructed layer by calls of `createInstance` and `deleteInstance`
(other member functions may be interleaved), the instances held in the spatial
index are exactly the instances in `getInstances()`: none stale, none missing. -/
theorem index_holds_exactly_the_instances (w : World) (hw : Reachable w) :
    ∀ i : InstancePtr, i ∈ w.layer.m_instanceTree.instances ↔ i ∈ Layer.getInstances w := by
  intro i
  rw [hw.consistent.index]
  rfl

/-- Witness for C3: the layer that owns 100 and 101 is reachable and its index
holds exactly these two. -/
theorem index_holds_exactly_the_instances_witness :
    Reachable twoInstanceWorld ∧
    ∀ i : InstancePtr,
      i ∈ twoInstanceWorld.layer.m_instanceTree.instances ↔
        i ∈ Layer.getInstances twoInstanceWorld :=
  ⟨twoInstanceWorld_reachable,
    index_holds_exactly_the_instances twoInstanceWorld twoInstanceWorld_reachable⟩

/-! ## The update pass -/

/-- C4: after `update` the changed-instance list is exactly the subsequence of
`getInstances()` made of the instances whose update routine returned something
else than `ICHANGE_NO_CHANGES`, in the order of the owned sequence, whatever
the list held before the call; an instance occurs in it once when the owned
sequence holds no pointer twice (as in every reachable state). -/
theorem update_collects_changed_instances (w : World) (curticks : Nat)
    (upd : InstanceUpdate) :
    (Layer.update w curticks upd).2.layer.m_changedinstances =
      (Layer.getInstances w).filter
        (fun i => decide (upd.result curticks i ≠ ICHANGE_NO_CHANGES)) ∧
    Layer.getInstances (Layer.update w curticks upd).2 = Layer.getInstances w ∧
    List.Sublist (Layer.update w curticks upd).2.layer.m_changedinstances
      (Layer.getInstances w) ∧
    (∀ i, i ∈ (Layer.update w curticks upd).2.layer.m_changedinstances ↔
      i ∈ Layer.getInstances w ∧ upd.result curticks i ≠ ICHANGE_NO_CHANGES) ∧
    ((Layer.getInstances w).Nodup →
      (Layer.update w curticks upd).2.layer.m_changedinstances.Nodup) := by
  have hinst : Layer.getInstances (Layer.update w curticks upd).2 = Layer.getInstances w := by
    show (Layer.update w curticks upd).2.layer.m_instances = w.layer.m_instances
    rw [update_layer]
  rw [update_layer]
  refine ⟨rfl, hinst, List.filter_sublist _, ?_, ?_⟩
  · intro i
    simp [changedOf, Layer.getInstances]
  · intro hnd
    exact List.Nodup.sublist (List.filter_sublist _) hnd

/-- Witness for C4: in the layer owning 100 and 101, a pass in which only 101
reports a change leaves the changed-instance list without repetition. -/
theorem update_collects_changed_instances_witness :
    (Layer.getInstances twoInstanceWorld).Nodup ∧
    (Layer.update twoInstanceWorld 40 sampleUpdate).2.layer.m_changedinstances.Nodup :=
  ⟨by simp [twoInstanceWorld_instances],
    (update_collects_changed_instances twoInstanceWorld 40 sampleUpdate).2.2.2.2
      (by simp [twoInstanceWorld_instances])⟩

/-- C5: edge-triggered change reporting. When `update` is called twice in a row
and no instance reports a change during the second call, the second call
returns false and leaves the changed-instance list empty, whatever the first
call returned; and the first call returns true whenever some instance reported
a change during it. -/
theorem update_twice_edge_triggered (w : World) (t1 t2 : Nat) (upd1 upd2 : InstanceUpdate)
    (hquiet : ∀ i ∈ Layer.getInstances (Layer.update w t1 upd1).2,
      upd2.result t2 i = ICHANGE_NO_CHANGES) :
    (Layer.update (Layer.update w t1 upd1).2 t2 upd2).1 = false ∧
    (Layer.update (Layer.update w t1 upd1).2 t2 upd2).2.layer.m_changedinstances = [] ∧
    ((∃ i ∈ Layer.getInstances w, upd1.result t1 i ≠ ICHANGE_NO_CHANGES) →
      (Layer.update w t1 upd1).1 = true) := by
  have hnone : changedOf upd2 t2 (Layer.update w t1 upd1).2.layer.m_instances = [] := by
    apply List.filter_eq_nil_iff.mpr
    intro i hi
    simpa using hquiet i hi
  refine ⟨?_, ?_, ?_⟩
  · rw [update_retval, hnone, update_layer]
    simp
  · rw [update_layer, hnone]
  · rintro ⟨i, hi, hne⟩
    have hmem : i ∈ changedOf upd1 t1 w.layer.m_instances :=
      List.mem_filter.mpr ⟨hi, by simpa using hne⟩
    have hne' : changedOf upd1 t1 w.layer.m_instances ≠ [] := List.ne_nil_of_mem hmem
    rw [update_retval]
    simp [hne']

/-- Witness for C5: a pass in which 101 reports a change, followed by a quiet
pass. -/
theorem update_twice_edge_triggered_witness :
    (Layer.update (Layer.update twoInstanceWorld 40 sampleUpdate).2 41 quietUpdate).1 = false ∧
    (Layer.update twoInstanceWorld 40 sampleUpdate).1 = true :=
  ⟨(update_twice_edge_triggered twoInstanceWorld 40 41 sampleUpdate quietUpdate
      (fun _ _ => rfl)).1,
    (update_twice_edge_triggered twoInstanceWorld 40 41 sampleUpdate quietUpdate
      (fun _ _ => rfl)).2.2
      ⟨101, by simp [twoInstanceWorld_instances], by simp [sampleUpdate, ICHANGE_NO_CHANGES]⟩⟩

/-- C6, the code at the failing input: on a freshly constructed layer, which
owns no instance, `deleteInstance` is called with the instance 555 of another
layer and then `update` runs with no instance reporting a change. No instance of
the layer was created, deleted or changed (the sequence is empty before and
after, 555 is still a live object), yet `update` returns true. -/
theorem update_true_after_foreign_delete :
    Layer.getInstances freshWorld = [] ∧
    Layer.getInstances (Layer.deleteInstance freshWorld 555) = [] ∧
    (Layer.deleteInstance freshWorld 555).heap 555 = freshWorld.heap 555 ∧
    (Layer.update (Layer.deleteInstance freshWorld 555) 40 quietUpdate).2.layer.m_changedinstances
      = [] ∧
    (Layer.update (Layer.deleteInstance freshWorld 555) 40 quietUpdate).1 = true := by
  have h : (555 : InstancePtr) ∉ freshWorld.layer.m_instances := by
    simp [freshWorld, Layer.construct]
  rw [update_layer, update_retval, deleteInstance_eq_of_not_mem freshWorld 555 h]
  simp [Layer.getInstances, freshWorld, Layer.construct, changedOf]

/-! ## Listener fan-out -/

theorem registerListeners_frame (ls : List ListenerPtr) (w : World) :
    registerListeners w ls =
      { w with layer := { w.layer with
          m_changelisteners := w.layer.m_changelisteners ++ ls } } := by
  induction ls generalizing w with
  | nil => simp [registerListeners]
  | cons l ls ih =>
    have h := ih (Layer.addChangeListener w l)
    simp only [registerListeners, List.foldl_cons] at h ⊢
    rw [h]
    simp [Layer.addChangeListener]

theorem callsOf_map (ls : List ListenerPtr) (cb : Callback) (layer : Layer) (heap : Heap) :
    callsOf (ls.map (fun l => (⟨l, cb, layer, heap⟩ : Event))) = ls.map (fun l => (l, cb)) := by
  simp [callsOf, Function.comp_def]

theorem calls_to_listener_of_nodup (ls : List ListenerPtr) (cb : Callback) (l : ListenerPtr)
    (hnd : ls.Nodup) (hl : l ∈ ls) :
    (ls.map (fun a => (a, cb))).filter (fun c => decide (c.1 = l)) = [(l, cb)] := by
  induction ls with
  | nil => simp at hl
  | cons x xs ih =>
    have hx : x ∉ xs := (List.nodup_cons.mp hnd).1
    have hxs : xs.Nodup := (List.nodup_cons.mp hnd).2
    by_cases hxl : x = l
    · subst hxl
      have hnil : (xs.map (fun a => (a, cb))).filter (fun c => decide (c.1 = x)) = [] := by
        apply List.filter_eq_nil_iff.mpr
        intro c hc
        obtain ⟨a, ha, rfl⟩ := List.mem_map.mp hc
        have : a ≠ x := fun e => hx (e ▸ ha)
        simpa using this
      simp [List.filter_cons, hnil]
    · have hl' : l ∈ xs := by
        rcases List.mem_cons.mp hl with e | e
        · exact absurd e.symm hxl
        · exact e
      simp [List.filter_cons, hxl, ih hxs hl']

theorem deleteInstance_log (w : World) (inst : InstancePtr) :
    (Layer.deleteInstance w inst).log =
      w.log ++ w.layer.m_changelisteners.map (fun l =>
        ⟨l, Callback.onInstanceDelete w.layer.thisPtr inst, w.layer, w.heap⟩) := by
  by_cases h : inst ∈ w.layer.m_instances
  · rw [deleteInstance_eq_of_mem w inst h]
  · rw [deleteInstance_eq_of_not_mem w inst h]

theorem deleteInstance_events (w : World) (inst : InstancePtr) :
    World.eventsSince w (Layer.deleteInstance w inst) =
      w.layer.m_changelisteners.map (fun l =>
        ⟨l, Callback.onInstanceDelete w.layer.thisPtr inst, w.layer, w.heap⟩) := by
  simp [World.eventsSince, deleteInstance_log]

theorem createInstance_events (w : World) (addr : InstancePtr) (object : ObjectPtr)
    (p : ExactModelCoordinate) (id : String) :
    callsOf (World.eventsSince w (Layer.createInstance w addr object p id).2) =
      w.layer.m_changelisteners.map (fun l =>
        (l, Callback.onInstanceCreate w.layer.thisPtr addr)) := by
  rw [createInstance_eq]
  simp [World.eventsSince, callsOf, Function.comp_def]

theorem update_events (w : World) (curticks : Nat) (upd : InstanceUpdate)
    (h : (Layer.update w curticks upd).2.layer.m_changedinstances ≠ []) :
    callsOf (World.eventsSince w (Layer.update w curticks upd).2) =
      w.layer.m_changelisteners.map (fun l =>
        (l, Callback.onLayerChanged w.layer.thisPtr
          (Layer.update w curticks upd).2.layer.m_changedinstances)) := by
  rw [update_layer] at h
  have h' : changedOf upd curticks w.layer.m_instances ≠ [] := h
  simp only [World.eventsSince, update_log, update_layer, h', ne_eq, not_false_eq_true, if_true]
  simp [callsOf, Function.comp_def]

/-! ## Deletion: order of notification and removal, and instances not owned -/

/-- C8: in `deleteInstance` the `onInstanceDelete` callbacks come before the
removal. The callbacks issued by the call are one per registered listener, in
order; at the moment of each of them the layer members (among them the instance
sequence and the spatial index) and the instance store are exactly what they
were before the call, so an instance of the layer that is being deleted is
still in the sequence and still a live object; the removal shows only in the
state after the last callback. -/
theorem deleteInstance_notifies_before_removal (w : World) (inst : InstancePtr) :
    (World.eventsSince w (Layer.deleteInstance w inst)).map (fun e => e.listener) =
      w.layer.m_changelisteners ∧
    (∀ e ∈ World.eventsSince w (Layer.deleteInstance w inst),
      e.call = Callback.onInstanceDelete w.layer.thisPtr inst ∧
      e.layer.m_instances = Layer.getInstances w ∧
      e.layer.m_instanceTree = w.layer.m_instanceTree ∧
      e.layer = w.layer ∧ e.heap = w.heap) ∧
    (inst ∈ Layer.getInstances w →
      (∀ e ∈ World.eventsSince w (Layer.deleteInstance w inst),
        inst ∈ e.layer.m_instances ∧ e.heap inst = w.heap inst) ∧
      Layer.getInstances (Layer.deleteInstance w inst) = (Layer.getInstances w).erase inst ∧
      (Layer.deleteInstance w inst).layer.m_instanceTree =
        w.layer.m_instanceTree.removeInstance inst ∧
      (Layer.deleteInstance w inst).heap inst = none) := by
  have hall : ∀ e ∈ World.eventsSince w (Layer.deleteInstance w inst),
      e.call = Callback.onInstanceDelete w.layer.thisPtr inst ∧
      e.layer = w.layer ∧ e.heap = w.heap := by
    intro e he
    rw [deleteInstance_events] at he
    obtain ⟨l, _, rfl⟩ := List.mem_map.mp he
    exact ⟨rfl, rfl, rfl⟩
  refine ⟨?_, ?_, ?_⟩
  · rw [deleteInstance_events]
    simp [Function.comp_def]
  · intro e he
    obtain ⟨h1, h2, h3⟩ := hall e he
    exact ⟨h1, by rw [h2]; rfl, by rw [h2], h2, h3⟩
  · intro hmem
    refine ⟨?_, ?_⟩
    · intro e he
      obtain ⟨_, h2, h3⟩ := hall e he
      exact ⟨by rw [h2]; exact hmem, by rw [h3]⟩
    · rw [deleteInstance_eq_of_mem w inst hmem]
      exact ⟨rfl, rfl, by simp⟩

/-- Witness for C8: deleting the instance 100 from the layer that owns 100 and
101 and has listeners 70 and 71. -/
theorem deleteInstance_notifies_before_removal_witness :
    100 ∈ Layer.getInstances twoInstanceWorld ∧
    (∀ e ∈ World.eventsSince twoInstanceWorld (Layer.deleteInstance twoInstanceWorld 100),
      100 ∈ e.layer.m_instances ∧ e.heap 100 = twoInstanceWorld.heap 100) ∧
    Layer.getInstances (Layer.deleteInstance twoInstanceWorld 100) =
      (Layer.getInstances twoInstanceWorld).erase 100 :=
  ⟨by simp [twoInstanceWorld_instances],
    ((deleteInstance_notifies_before_removal twoInstanceWorld 100).2.2
      (by simp [twoInstanceWorld_instances])).1,
    ((deleteInstance_notifies_before_removal twoInstanceWorld 100).2.2
      (by simp [twoInstanceWorld_instances])).2.1⟩

/-- C9: for an instance that is not in the instance sequence of the layer,
`deleteInstance` removes nothing: `getInstances()` and the contents of the
spatial index are the same before and after the call (and no object is
freed). -/
theorem deleteInstance_foreign_removes_nothing (w : World) (inst : InstancePtr)
    (h : inst ∉ Layer.getInstances w) :
    Layer.getInstances (Layer.deleteInstance w inst) = Layer.getInstances w ∧
    (Layer.deleteInstance w inst).layer.m_instanceTree = w.layer.m_instanceTree ∧
    (Layer.deleteInstance w inst).heap = w.heap := by
  rw [deleteInstance_eq_of_not_mem w inst h]
  exact ⟨rfl, rfl, rfl⟩

/-- Witness for C9: the layer that owns 100 and 101 is asked to delete 555, an
instance of another layer. -/
theorem deleteInstance_foreign_removes_nothing_witness :
    555 ∉ Layer.getInstances twoInstanceWorld ∧
    Layer.getInstances (Layer.deleteInstance twoInstanceWorld 555) =
      Layer.getInstances twoInstanceWorld :=
  ⟨by simp [twoInstanceWorld_instances],
    (deleteInstance_foreign_removes_nothing twoInstanceWorld 555
      (by simp [twoInstanceWorld_instances])).1⟩

/-- C10, refuted as stated: the layer with listeners 70 and 71 and no instance
is asked to delete the instance 555, which belongs to another layer. Both
listeners get an `onInstanceDelete` callback and the changed flag goes from
false to true, so the call is neither silent nor without effect on the layer
state. -/
theorem deleteInstance_foreign_not_silent :
    555 ∉ Layer.getInstances listenedWorld ∧
    callsOf (World.eventsSince listenedWorld (Layer.deleteInstance listenedWorld 555)) =
      [(70, Callback.onInstanceDelete 1 555), (71, Callback.onInstanceDelete 1 555)] ∧
    listenedWorld.layer.m_changed = false ∧
    (Layer.deleteInstance listenedWorld 555).layer.m_changed = true := by
  have h : (555 : InstancePtr) ∉ listenedWorld.layer.m_instances := by
    simp [listenedWorld, Layer.addChangeListener, freshWorld, Layer.construct]
  refine ⟨h, ?_, ?_, ?_⟩
  · rw [deleteInstance_events, callsOf_map]
    simp [listenedWorld, Layer.addChangeListener, freshWorld, Layer.construct]
  · simp [listenedWorld, Layer.addChangeListener, freshWorld, Layer.construct]
  · rw [deleteInstance_eq_of_not_mem listenedWorld 555 h]

/-- C10, amended: for an instance that is not in the layer, `deleteInstance`
removes nothing and leaves the instance sequence, the spatial index, the
changed-instance list, the listener list and the instance store unchanged; every
registered listener still receives its `onInstanceDelete` callback, once, in
registration order, since the callbacks are issued before the instance is looked
up. -/
theorem deleteInstance_foreign_frame (w : World) (inst : InstancePtr)
    (h : inst ∉ Layer.getInstances w) :
    Layer.getInstances (Layer.deleteInstance w inst) = Layer.getInstances w ∧
    (Layer.deleteInstance w inst).layer.m_instanceTree = w.layer.m_instanceTree ∧
    (Layer.deleteInstance w inst).layer.m_changedinstances = w.layer.m_changedinstances ∧
    (Layer.deleteInstance w inst).layer.m_changelisteners = w.layer.m_changelisteners ∧
    (Layer.deleteInstance w inst).heap = w.heap ∧
    callsOf (World.eventsSince w (Layer.deleteInstance w inst)) =
      w.layer.m_changelisteners.map (fun l =>
        (l, Callback.onInstanceDelete w.layer.thisPtr inst)) := by
  refine ⟨?_, ?_, ?_, ?_, ?_, ?_⟩
  · rw [deleteInstance_eq_of_not_mem w inst h]; rfl
  · rw [deleteInstance_eq_of_not_mem w inst h]
  · rw [deleteInstance_eq_of_not_mem w inst h]
  · rw [deleteInstance_eq_of_not_mem w inst h]
  · rw [deleteInstance_eq_of_not_mem w inst h]
  · rw [deleteInstance_events, callsOf_map]

/-- Witness for the amended C10: the layer that owns 100 and 101 and has
listeners 70 and 71 is asked to delete 555, an instance of another layer. -/
theorem deleteInstance_foreign_frame_witness :
    555 ∉ Layer.getInstances twoInstanceWorld ∧
    (Layer.deleteInstance twoInstanceWorld 555).layer.m_changelisteners =
      twoInstanceWorld.layer.m_changelisteners ∧
    (Layer.deleteInstance twoInstanceWorld 555).heap = twoInstanceWorld.heap :=
  ⟨by simp [twoInstanceWorld_instances],
    (deleteInstance_foreign_frame twoInstanceWorld 555
      (by simp [twoInstanceWorld_instances])).2.2.2.1,
    (deleteInstance_foreign_frame twoInstanceWorld 555
      (by simp [twoInstanceWorld_instances])).2.2.2.2.1⟩

/-! ## Removal of listeners -/

theorem removeChangeListener_loop_not_mem (listener : ListenerPtr)
    (before rest : List ListenerPtr) (w : World) (h : listener ∉ rest) :
    Layer.removeChangeListener.loop listener before rest w = w := by
  induction rest generalizing before with
  | nil => simp [Layer.removeChangeListener.loop]
  | cons x xs ih =>
    have hx : x ≠ listener := fun e => h (by simp [e])
    have hxs : listener ∉ xs := fun e => h (by simp [e])
    simp [Layer.removeChangeListener.loop, hx, ih _ hxs]

theorem removeChangeListener_loop_mem (listener : ListenerPtr)
    (before rest : List ListenerPtr) (w : World) (h : listener ∈ rest) :
    Layer.removeChangeListener.loop listener before rest w =
      { w with layer := { w.layer with
          m_changelisteners := before ++ rest.erase listener } } := by
  induction rest generalizing before with
  | nil => simp at h
  | cons x xs ih =>
    by_cases hx : x = listener
    · subst hx
      simp [Layer.removeChangeListener.loop]
    · have hxs : listener ∈ xs := by
        rcases List.mem_cons.mp h with e | e
        · exact absurd e.symm hx
        · exact e
      simp [Layer.removeChangeListener.loop, hx, ih _ hxs, List.erase_cons_tail,
        List.append_assoc]

/-- C11: removing a listener that is not registered is a silent no-op:
`removeChangeListener` leaves the listener list, contents and order, and every
other part of the state (members of the layer, instance store, callbacks
issued) unchanged. -/
theorem removeChangeListener_unregistered (w : World) (listener : ListenerPtr)
    (h : listener ∉ w.layer.m_changelisteners) :
    (Layer.removeChangeListener w listener).layer.m_changelisteners =
      w.layer.m_changelisteners ∧
    Layer.removeChangeListener w listener = w := by
  have hw : Layer.removeChangeListener w listener = w :=
    removeChangeListener_loop_not_mem listener [] w.layer.m_changelisteners w h
  exact ⟨by rw [hw], hw⟩

/-- Witness for C11: the layer with listeners 70 and 71 is asked to remove the
listener 72. -/
theorem removeChangeListener_unregistered_witness :
    72 ∉ twoInstanceWorld.layer.m_changelisteners ∧
    Layer.removeChangeListener twoInstanceWorld 72 = twoInstanceWorld :=
  ⟨by simp [twoInstanceWorld, createInstance_eq, listenedWorld, Layer.addChangeListener,
      freshWorld, Layer.construct],
    (removeChangeListener_unregistered twoInstanceWorld 72
      (by simp [twoInstanceWorld, createInstance_eq, listenedWorld, Layer.addChangeListener,
        freshWorld, Layer.construct])).2⟩

/-! ## The class `Map` -/

/-- C18: `Map::isChanged` returns true exactly when the list returned by
`Map::getChangedLayers` is not empty, and the call leaves the map as it was. -/
theorem isChanged_iff_changedLayers_nonempty (m : Map) :
    ((Map.isChanged m).1 = true ↔ Map.getChangedLayers m ≠ []) ∧
    (Map.isChanged m).2 = m := by
  refine ⟨?_, rfl⟩
  cases h : m.m_changedlayers <;> simp [Map.isChanged, Map.getChangedLayers, h]

/-! ## Strings, extraction and `parse_point` -/

theorem Cxx.find_eq_npos_or_lt (s : List Char) (ch : Char) :
    Cxx.find s ch = Cxx.npos ∨ Cxx.find s ch < s.length := by
  induction s with
  | nil => left; rfl
  | cons c cs ih =>
    by_cases hc : c = ch
    · right; simp [Cxx.find, hc]
    · by_cases hn : Cxx.find cs ch = Cxx.npos
      · left; simp [Cxx.find, hc, hn]
      · right
        have hlt : Cxx.find cs ch < cs.length := ih.resolve_left hn
        simp [Cxx.find, hc, hn, hlt]

theorem Cxx.find_eq_npos_of_not_mem (s : List Char) (ch : Char) (h : ch ∉ s) :
    Cxx.find s ch = Cxx.npos := by
  induction s with
  | nil => rfl
  | cons c cs ih =>
    have hc : c ≠ ch := fun e => h (by simp [e])
    have hcs : ch ∉ cs := fun e => h (by simp [e])
    simp [Cxx.find, hc, ih hcs]

theorem Cxx.find_append (sx sy : List Char) (ch : Char) (h : ch ∉ sx)
    (hlen : sx.length < Cxx.npos) : Cxx.find (sx ++ ch :: sy) ch = sx.length := by
  induction sx with
  | nil => simp [Cxx.find]
  | cons c cs ih =>
    have hc : c ≠ ch := fun e => h (by simp [e])
    have hcs : ch ∉ cs := fun e => h (by simp [e])
    have hlen' : cs.length < Cxx.npos := by
      simp only [List.length_cons] at hlen; omega
    have hrec := ih hcs hlen'
    have hne : cs.length ≠ Cxx.npos := Nat.ne_of_lt hlen'
    simp [Cxx.find, hc, hrec, hne]

theorem Cxx.substr_zero (s : List Char) (n : Nat) : Cxx.substr s 0 n = some (s.take n) := by
  simp [Cxx.substr]

theorem Cxx.substr_of_le (s : List Char) (pos n : Nat) (h : pos ≤ s.length) :
    Cxx.substr s pos n = some ((s.drop pos).take n) := by
  simp [Cxx.substr, Nat.not_lt.mpr h]

theorem Cxx.sizeAdd_find_le (s : List Char) (ch : Char) :
    Cxx.sizeAdd (Cxx.find s ch) 1 ≤ s.length := by
  rcases Cxx.find_eq_npos_or_lt s ch with h | h
  · rw [h]
    simp [Cxx.sizeAdd, Cxx.npos]
  · exact le_trans (Nat.mod_le _ _) h

theorem parse_point_eq (value : String) :
    parse_point value =
      some ⟨Cxx.extractInt (value.toList.take (Cxx.find value.toList ',')),
        Cxx.extractInt ((value.toList.drop (Cxx.sizeAdd (Cxx.find value.toList ',') 1)).take
          value.toList.length), 0⟩ := by
  unfold parse_point
  simp only [Cxx.substr_zero, Cxx.substr_of_le _ _ _ (Cxx.sizeAdd_find_le value.toList ',')]

theorem parse_point_of_comma (value : String) (sx sy : List Char)
    (hv : value.toList = sx ++ ',' :: sy) (hsx : ',' ∉ sx) (hlen : sx.length < Cxx.npos) :
    parse_point value = some ⟨Cxx.extractInt sx, Cxx.extractInt sy, 0⟩ := by
  have hfind : Cxx.find value.toList ',' = sx.length := by
    rw [hv]; exact Cxx.find_append sx sy ',' hsx hlen
  have hadd : Cxx.sizeAdd sx.length 1 = sx.length + 1 := by
    unfold Cxx.sizeAdd
    apply Nat.mod_eq_of_lt
    unfold Cxx.npos at hlen
    omega
  rw [parse_point_eq, hfind, hadd, hv]
  have h1 : (sx ++ ',' :: sy).take sx.length = sx := by simp
  have h2 : ((sx ++ ',' :: sy).drop (sx.length + 1)).take (sx ++ ',' :: sy).length = sy := by
    have hd : (sx ++ ',' :: sy).drop (sx.length + 1) = sy := by
      rw [show sx ++ ',' :: sy = (sx ++ [',']) ++ sy by simp]
      rw [List.drop_append_of_le_length (by simp)]
      simp
    rw [hd]
    apply List.take_of_length_le
    simp
    omega
  rw [h1, h2]

theorem digitChar_decimal (k : Nat) (h : k < 10) :
    (Nat.digitChar k).isDigit = true ∧ (Nat.digitChar k).toNat - 48 = k := by
  interval_cases k <;> exact ⟨by decide, by decide⟩

theorem Cxx.digitsValue_append_singleton (ds : List Char) (c : Char) :
    Cxx.digitsValue (ds ++ [c]) = 10 * Cxx.digitsValue ds + (c.toNat - 48) := by
  simp [Cxx.digitsValue, List.foldl_append]

theorem toDigitsCore_decimal (fuel : Nat) :
    ∀ (n : Nat) (ds : List Char), n < fuel →
      ∃ pre, Nat.toDigitsCore 10 fuel n ds = pre ++ ds ∧ pre ≠ [] ∧
        (∀ c ∈ pre, c.isDigit = true) ∧ Cxx.digitsValue pre = n := by
  induction fuel with
  | zero => intro n ds h; exact absurd h (Nat.not_lt_zero n)
  | succ fuel ih =>
    intro n ds h
    have hd := digitChar_decimal (n % 10) (Nat.mod_lt n (by decide))
    by_cases hq : n / 10 = 0
    · refine ⟨[Nat.digitChar (n % 10)], by simp [Nat.toDigitsCore, hq], by simp, ?_, ?_⟩
      · intro c hc
        rw [List.mem_singleton.mp hc]
        exact hd.1
      · have hn : n % 10 = n := by omega
        have h2 := hd.2
        rw [hn] at h2
        simp [Cxx.digitsValue, h2, hn]
    · have hlt : n / 10 < fuel := by omega
      obtain ⟨pre, hpre, hne, hdig, hval⟩ := ih (n / 10) (Nat.digitChar (n % 10) :: ds) hlt
      refine ⟨pre ++ [Nat.digitChar (n % 10)], ?_, by simp, ?_, ?_⟩
      · simp [Nat.toDigitsCore, hq, hpre]
      · intro c hc
        rcases List.mem_append.mp hc with h1 | h1
        · exact hdig c h1
        · rw [List.mem_singleton.mp h1]
          exact hd.1
      · rw [Cxx.digitsValue_append_singleton, hval, hd.2]
        omega

theorem toDigits_decimal (n : Nat) :
    Nat.toDigits 10 n ≠ [] ∧ (∀ c ∈ Nat.toDigits 10 n, c.isDigit = true) ∧
      Cxx.digitsValue (Nat.toDigits 10 n) = n := by
  obtain ⟨pre, hpre, hne, hdig, hval⟩ := toDigitsCore_decimal (n + 1) n [] (Nat.lt_succ_self n)
  have h : Nat.toDigits 10 n = pre := by simp [Nat.toDigits, hpre]
  rw [h]
  exact ⟨hne, hdig, hval⟩

theorem toDigits_length_le (n : Nat) (h : n < 10 ^ 10) : (Nat.toDigits 10 n).length ≤ 10 := by
  have := Nat.repr_length n 10 (by decide) h
  simpa [Nat.repr, String.length, List.asString] using this

theorem isDigit_not_special (c : Char) (h : c.isDigit = true) :
    c ≠ ',' ∧ c ≠ '-' ∧ c ≠ '+' ∧ Cxx.isspace c = false := by
  refine ⟨?_, ?_, ?_, ?_⟩
  · intro e; subst e; exact absurd h (by decide)
  · intro e; subst e; exact absurd h (by decide)
  · intro e; subst e; exact absurd h (by decide)
  · by_contra hs
    have hs' : Cxx.isspace c = true := by simpa using hs
    simp only [Cxx.isspace, Bool.or_eq_true, decide_eq_true_eq] at hs'
    rcases hs' with ((((e | e) | e) | e) | e) | e <;> (subst e; exact absurd h (by decide))

theorem Cxx.extractInt_digits (ds : List Char) (hne : ds ≠ [])
    (hdig : ∀ c ∈ ds, c.isDigit = true) (hmax : (Cxx.digitsValue ds : Int) ≤ Cxx.INT_MAX) :
    Cxx.extractInt ds = (Cxx.digitsValue ds : Int) := by
  obtain ⟨c, cs, rfl⟩ := List.exists_cons_of_ne_nil hne
  have hc := isDigit_not_special c (hdig c (by simp))
  have hdrop : (c :: cs).dropWhile Cxx.isspace = c :: cs := by
    simp [List.dropWhile, hc.2.2.2]
  have hsign : Cxx.splitSign (c :: cs) = (false, c :: cs) := by
    unfold Cxx.splitSign
    split
    · rename_i rest heq
      exact absurd (List.cons.inj heq).1 hc.2.1
    · rename_i rest heq
      exact absurd (List.cons.inj heq).1 hc.2.2.1
    · rfl
  have htake : (c :: cs).takeWhile Char.isDigit = c :: cs :=
    List.takeWhile_eq_self_iff.mpr hdig
  have hmin : ¬ ((Cxx.digitsValue (c :: cs) : Int) < Cxx.INT_MIN) := by
    unfold Cxx.INT_MIN; omega
  unfold Cxx.extractInt
  simp only [hdrop, hsign, htake]
  simp [not_lt.mpr hmax, hmin]

theorem Cxx.extractInt_minus_digits (ds : List Char) (hne : ds ≠ [])
    (hdig : ∀ c ∈ ds, c.isDigit = true) (hmin : Cxx.INT_MIN ≤ -(Cxx.digitsValue ds : Int)) :
    Cxx.extractInt ('-' :: ds) = -(Cxx.digitsValue ds : Int) := by
  have hdrop : ('-' :: ds).dropWhile Cxx.isspace = '-' :: ds := by
    have : Cxx.isspace '-' = false := by decide
    simp [List.dropWhile, this]
  have hsign : Cxx.splitSign ('-' :: ds) = (true, ds) := rfl
  have htake : ds.takeWhile Char.isDigit = ds := List.takeWhile_eq_self_iff.mpr hdig
  have hmax : ¬ (-(Cxx.digitsValue ds : Int) > Cxx.INT_MAX) := by
    unfold Cxx.INT_MAX; omega
  unfold Cxx.extractInt
  simp only [hdrop, hsign, htake]
  simp [hne, hmax, not_lt.mpr hmin]

theorem Cxx.extractInt_of_no_digit (s : List Char)
    (h : ∀ c, (Cxx.splitSign (s.dropWhile Cxx.isspace)).2.head? = some c → c.isDigit = false) :
    Cxx.extractInt s = 0 := by
  have htake : (Cxx.splitSign (s.dropWhile Cxx.isspace)).2.takeWhile Char.isDigit = [] := by
    cases hs : (Cxx.splitSign (s.dropWhile Cxx.isspace)).2 with
    | nil => rfl
    | cons c cs =>
      have hc : c.isDigit = false := h c (by simp [hs])
      simp [List.takeWhile, hc]
  unfold Cxx.extractInt
  simp [htake]

/-- The decimal text of an integer, as the list of its characters. -/
theorem toString_int_toList (x : Int) :
    (toString x).toList =
      if x < 0 then '-' :: Nat.toDigits 10 x.natAbs else Nat.toDigits 10 x.natAbs := by
  cases x with
  | ofNat m =>
    have : ¬ ((Int.ofNat m) < 0) := by simp
    simp only [this, if_false]
    rfl
  | negSucc m =>
    have : (Int.negSucc m) < 0 := Int.negSucc_lt_zero m
    simp only [this, if_true]
    rfl

theorem Cxx.extractInt_toString (x : Int) (hmin : Cxx.INT_MIN ≤ x) (hmax : x ≤ Cxx.INT_MAX) :
    Cxx.extractInt (toString x).toList = x ∧ ',' ∉ (toString x).toList ∧
      (toString x).toList.length < Cxx.npos := by
  obtain ⟨hne, hdig, hval⟩ := toDigits_decimal x.natAbs
  have habs : x.natAbs < 10 ^ 10 := by
    unfold Cxx.INT_MIN at hmin
    unfold Cxx.INT_MAX at hmax
    omega
  have hlen := toDigits_length_le x.natAbs habs
  have hcomma : ',' ∉ Nat.toDigits 10 x.natAbs :=
    fun hmem => (isDigit_not_special ',' (hdig ',' hmem)).1 rfl
  rw [toString_int_toList]
  by_cases hx : x < 0
  · simp only [hx, if_true]
    refine ⟨?_, ?_, ?_⟩
    · rw [Cxx.extractInt_minus_digits _ hne hdig (by rw [hval]; omega), hval]
      omega
    · intro hmem
      rcases List.mem_cons.mp hmem with e | e
      · exact absurd e (by decide)
      · exact hcomma e
    · simp only [List.length_cons, Cxx.npos]; omega
  · simp only [hx, if_false]
    refine ⟨?_, hcomma, ?_⟩
    · rw [Cxx.extractInt_digits _ hne hdig (by rw [hval]; omega), hval]
      omega
    · simp only [Cxx.npos]; omega

theorem toList_pair (a b : String) :
    (a ++ "," ++ b).toList = a.toList ++ ',' :: b.toList := by
  simp [String.toList, String.data_append]

theorem Cxx.extractInt_of_not_startsWithInt (s : List Char) (h : Cxx.startsWithInt s = false) :
    Cxx.extractInt s = 0 := by
  apply Cxx.extractInt_of_no_digit
  intro c hc
  unfold Cxx.startsWithInt at h
  cases hs : (Cxx.splitSign (s.dropWhile Cxx.isspace)).2 with
  | nil => rw [hs] at hc; simp at hc
  | cons d ds =>
    rw [hs] at hc h
    simp only [List.head?_cons, Option.some.injEq] at hc
    rw [← hc]
    exact h

/-- C19: for all `int` values `x` and `y`, negative ones included, `parse_point`
applied to the decimal text of `x`, a comma and the decimal text of `y` returns
the coordinate (x, y, 0). -/
theorem parse_point_decimal_pair (x y : Int)
    (hx : Cxx.INT_MIN ≤ x ∧ x ≤ Cxx.INT_MAX) (hy : Cxx.INT_MIN ≤ y ∧ y ≤ Cxx.INT_MAX) :
    parse_point (toString x ++ "," ++ toString y) = some ⟨x, y, 0⟩ := by
  obtain ⟨hxv, hxc, hxl⟩ := Cxx.extractInt_toString x hx.1 hx.2
  obtain ⟨hyv, _, _⟩ := Cxx.extractInt_toString y hy.1 hy.2
  rw [parse_point_of_comma _ _ _ (toList_pair (toString x) (toString y)) hxc hxl, hxv, hyv]

/-- Witness for C19: the text of the pair (-2, 3). -/
theorem parse_point_decimal_pair_witness :
    parse_point (toString (-2 : Int) ++ "," ++ toString (3 : Int)) = some ⟨-2, 3, 0⟩ :=
  parse_point_decimal_pair (-2) 3 (by decide) (by decide)

/-- C14, refuted as stated: the string "5", which has no comma, is parsed as
(5, 5, 0), and "3,abc", whose second part is not a number, as (3, 0, 0); neither
is the zero coordinate. -/
theorem parse_point_malformed_not_zero :
    parse_point "5" = some ⟨5, 5, 0⟩ ∧ parse_point "3,abc" = some ⟨3, 0, 0⟩ := by
  decide

/-- C14, amended: `parse_point` never fails and always returns z = 0. For a
string with a comma, x is extracted from the text before the first comma and y
from the text after it, and a part that does not begin with a number (a decimal
digit after optional white space and sign) gives 0 for its own component only;
the result is the zero coordinate when neither part begins with a number. -/
theorem parse_point_componentwise (value : String) :
    (∃ pt, parse_point value = some pt ∧ pt.z = 0) ∧
    (∀ sx sy : List Char, value.toList = sx ++ ',' :: sy → ',' ∉ sx → sx.length < Cxx.npos →
      ∃ pt, parse_point value = some pt ∧
        pt.x = Cxx.extractInt sx ∧ pt.y = Cxx.extractInt sy ∧
        (Cxx.startsWithInt sx = false → pt.x = 0) ∧
        (Cxx.startsWithInt sy = false → pt.y = 0) ∧
        (Cxx.startsWithInt sx = false → Cxx.startsWithInt sy = false →
          pt = ⟨0, 0, 0⟩)) := by
  refine ⟨⟨_, parse_point_eq value, rfl⟩, ?_⟩
  intro sx sy hv hsx hlen
  refine ⟨_, parse_point_of_comma value sx sy hv hsx hlen, rfl, rfl, ?_, ?_, ?_⟩
  · exact Cxx.extractInt_of_not_startsWithInt sx
  · exact Cxx.extractInt_of_not_startsWithInt sy
  · intro h1 h2
    rw [Cxx.extractInt_of_not_startsWithInt sx h1, Cxx.extractInt_of_not_startsWithInt sy h2]

/-- Witness for the amended C14: in "3,abc" the part after the comma does not
begin with a number, so y is 0 while x is 3. -/
theorem parse_point_componentwise_witness :
    ∃ pt, parse_point "3,abc" = some pt ∧ pt.x = Cxx.extractInt ['3'] ∧ pt.y = 0 := by
  obtain ⟨pt, h, hx, _, _, hy, _⟩ :=
    (parse_point_componentwise "3,abc").2 ['3'] ['a', 'b', 'c'] (by decide) (by decide)
      (by decide)
  exact ⟨pt, h, hx, hy (by decide)⟩

/-! ## `getInstances(field, value)` -/

theorem locLoop_eq (w : World) (ext : Collaborators) (pt : ModelCoordinate)
    (l result : List InstancePtr) (hlive : ∀ i ∈ l, w.heap i ≠ none) :
    Layer.getInstancesBy.locLoop w ext pt l result =
      some (result ++ l.filter (fun i => decide (cellOnLayer w ext i = some pt))) := by
  induction l generalizing result with
  | nil => simp [Layer.getInstancesBy.locLoop]
  | cons x xs ih =>
    have hxs : ∀ i ∈ xs, w.heap i ≠ none := fun i hi => hlive i (by simp [hi])
    obtain ⟨obj, hobj⟩ := Option.ne_none_iff_exists'.mp (hlive x (by simp))
    by_cases hc : obj.getLocationRef.getLayerCoordinatesOn w.layer ext (some w.layer.thisPtr) = pt
    · simp [Layer.getInstancesBy.locLoop, hobj, hc, ih _ hxs, cellOnLayer, List.filter_cons]
    · simp [Layer.getInstancesBy.locLoop, hobj, hc, ih _ hxs, cellOnLayer, List.filter_cons]

theorem fieldLoop_eq (w : World) (field value : String)
    (l result : List InstancePtr) (hlive : ∀ i ∈ l, w.heap i ≠ none) :
    Layer.getInstancesBy.fieldLoop w field value l result =
      some (result ++ l.filter (fun i => decide (attributeOf w i field = some value))) := by
  induction l generalizing result with
  | nil => simp [Layer.getInstancesBy.fieldLoop]
  | cons x xs ih =>
    have hxs : ∀ i ∈ xs, w.heap i ≠ none := fun i hi => hlive i (by simp [hi])
    obtain ⟨obj, hobj⟩ := Option.ne_none_iff_exists'.mp (hlive x (by simp))
    by_cases hc : obj.get field = value
    · simp [Layer.getInstancesBy.fieldLoop, hobj, hc, ih _ hxs, attributeOf, List.filter_cons]
    · simp [Layer.getInstancesBy.fieldLoop, hobj, hc, ih _ hxs, attributeOf, List.filter_cons]

theorem getInstancesBy_field_eq (w : World) (ext : Collaborators) (field value : String)
    (hfield : field ≠ "loc") (hlive : ∀ i ∈ w.layer.m_instances, w.heap i ≠ none) :
    Layer.getInstancesBy w ext field value =
      some (w.layer.m_instances.filter
        (fun i => decide (attributeOf w i field = some value)), w) := by
  simp [Layer.getInstancesBy, hfield, fieldLoop_eq w field value _ [] hlive]

theorem getInstancesBy_loc_eq (w : World) (ext : Collaborators) (value : String)
    (pt : ModelCoordinate) (hpt : parse_point value = some pt)
    (hlive : ∀ i ∈ w.layer.m_instances, w.heap i ≠ none) :
    Layer.getInstancesBy w ext "loc" value =
      some (w.layer.m_instances.filter
        (fun i => decide (cellOnLayer w ext i = some pt)), w) := by
  simp [Layer.getInstancesBy, hpt, locLoop_eq w ext pt _ [] hlive]

/-- C12: for a field name other than the reserved "loc" and any value,
`getInstances(field, value)` on a layer whose instances are live objects
returns exactly the instances of the layer whose attribute `field` equals
`value`: each returned instance is in the layer and matches, each matching
instance of the layer is returned, the result is in the order of the owned
sequence and has no repetition when that sequence has none; the state is left
as it was. -/
theorem getInstancesBy_attribute (w : World) (ext : Collaborators) (field value : String)
    (hfield : field ≠ "loc") (hlive : ∀ i ∈ Layer.getInstances w, w.heap i ≠ none) :
    ∃ result, Layer.getInstancesBy w ext field value = some (result, w) ∧
      (∀ i, i ∈ result ↔
        i ∈ Layer.getInstances w ∧ ∃ obj, w.heap i = some obj ∧ obj.get field = value) ∧
      result = (Layer.getInstances w).filter
        (fun i => decide (attributeOf w i field = some value)) ∧
      List.Sublist result (Layer.getInstances w) ∧
      ((Layer.getInstances w).Nodup → result.Nodup) := by
  refine ⟨_, getInstancesBy_field_eq w ext field value hfield hlive, ?_, rfl,
    List.filter_sublist _, fun hnd => List.Nodup.sublist (List.filter_sublist _) hnd⟩
  intro i
  simp only [List.mem_filter, decide_eq_true_eq, attributeOf, Layer.getInstances,
    Option.map_eq_some']

/-- Witness for C12: in the layer owning 100 and 101, where only 101 carries
"kind" = "tree", the query for that attribute returns 101 alone. -/
theorem getInstancesBy_attribute_witness :
    ∃ result, Layer.getInstancesBy taggedWorld sampleExt "kind" "tree" =
        some (result, taggedWorld) ∧
      result = (Layer.getInstances taggedWorld).filter
        (fun i => decide (attributeOf taggedWorld i "kind" = some "tree")) ∧
      result = [101] := by
  obtain ⟨result, h, _, hr, _⟩ :=
    getInstancesBy_attribute taggedWorld sampleExt "kind" "tree" (by decide) (by decide)
  exact ⟨result, h, hr, by rw [hr]; decide⟩

theorem cellOnLayer_withFields (w : World) (ext : Collaborators)
    (g : InstancePtr → List (String × String)) (i : InstancePtr) :
    cellOnLayer (w.withFields g) ext i = cellOnLayer w ext i := by
  cases h : w.heap i <;> simp [cellOnLayer, World.withFields, h, Instance.getLocationRef]

/-- C13, refuted as stated: the layer owns 100 and 101, both at cell (2, 3), and
neither carries an attribute named "location"; the query with the field name
"location" and the value "2,3" returns no instance. The field name is compared
with "loc", so "location" is looked up as an ordinary attribute. -/
theorem getInstancesBy_location_not_reserved :
    Layer.getInstances twoInstanceWorld = [100, 101] ∧
    cellOnLayer twoInstanceWorld sampleExt 100 = some ⟨2, 3, 0⟩ ∧
    cellOnLayer twoInstanceWorld sampleExt 101 = some ⟨2, 3, 0⟩ ∧
    (Layer.getInstancesBy twoInstanceWorld sampleExt "location" "2,3").map (fun r => r.1) =
      some [] := by
  decide

/-- C13, amended: for `int` values `x` and `y`, `getInstances` called with the
reserved field name "loc" and the decimal text "x,y" on a layer whose instances
are live objects returns exactly the instances of the layer whose cell
coordinate on this layer equals (x, y, 0). -/
theorem getInstancesBy_loc_members (w : World) (ext : Collaborators) (x y : Int)
    (hx : Cxx.INT_MIN ≤ x ∧ x ≤ Cxx.INT_MAX) (hy : Cxx.INT_MIN ≤ y ∧ y ≤ Cxx.INT_MAX)
    (hlive : ∀ i ∈ Layer.getInstances w, w.heap i ≠ none) :
    ∃ result,
      Layer.getInstancesBy w ext "loc" (toString x ++ "," ++ toString y) = some (result, w) ∧
      ∀ i, i ∈ result ↔
        i ∈ Layer.getInstances w ∧ ∃ obj, w.heap i = some obj ∧
          obj.getLocationRef.getLayerCoordinatesOn w.layer ext (some w.layer.thisPtr) =
            ⟨x, y, 0⟩ := by
  refine ⟨_, getInstancesBy_loc_eq w ext _ _ (parse_point_decimal_pair x y hx hy) hlive, ?_⟩
  intro i
  simp only [List.mem_filter, decide_eq_true_eq, cellOnLayer, Layer.getInstances,
    Option.map_eq_some']

/-- Witness for the amended C13: the query "loc" = "2,3" on the layer owning
100 and 101, both at cell (2, 3). -/
theorem getInstancesBy_loc_members_witness :
    ∃ result,
      Layer.getInstancesBy twoInstanceWorld sampleExt "loc"
          (toString (2 : Int) ++ "," ++ toString (3 : Int)) = some (result, twoInstanceWorld) ∧
      (100 ∈ result ↔
        100 ∈ Layer.getInstances twoInstanceWorld ∧ ∃ obj, twoInstanceWorld.heap 100 = some obj ∧
          obj.getLocationRef.getLayerCoordinatesOn twoInstanceWorld.layer sampleExt
            (some twoInstanceWorld.layer.thisPtr) = ⟨2, 3, 0⟩) := by
  obtain ⟨result, h, hmem⟩ :=
    getInstancesBy_loc_members twoInstanceWorld sampleExt 2 3 (by decide) (by decide)
      (by decide)
  exact ⟨result, h, hmem 100⟩

/-- C20: for `int` values `x` and `y`, `getInstances("loc", "x,y")` on a layer
whose instances are live objects returns the instances of the layer whose cell
coordinate on this layer equals (x, y, 0), in the order of the owned sequence,
and the same list whatever attribute values the instances carry. -/
theorem getInstancesBy_loc_ordered (w : World) (ext : Collaborators) (x y : Int)
    (hx : Cxx.INT_MIN ≤ x ∧ x ≤ Cxx.INT_MAX) (hy : Cxx.INT_MIN ≤ y ∧ y ≤ Cxx.INT_MAX)
    (hlive : ∀ i ∈ Layer.getInstances w, w.heap i ≠ none) :
    (Layer.getInstancesBy w ext "loc" (toString x ++ "," ++ toString y)).map (fun r => r.1) =
      some ((Layer.getInstances w).filter
        (fun i => decide (cellOnLayer w ext i = some ⟨x, y, 0⟩))) ∧
    ∀ g : InstancePtr → List (String × String),
      (Layer.getInstancesBy (w.withFields g) ext "loc"
          (toString x ++ "," ++ toString y)).map (fun r => r.1) =
        (Layer.getInstancesBy w ext "loc" (toString x ++ "," ++ toString y)).map
          (fun r => r.1) := by
  have hpt := parse_point_decimal_pair x y hx hy
  have h1 := getInstancesBy_loc_eq w ext _ _ hpt hlive
  refine ⟨by rw [h1]; rfl, ?_⟩
  intro g
  have hlive' : ∀ i ∈ (w.withFields g).layer.m_instances, (w.withFields g).heap i ≠ none := by
    intro i hi
    obtain ⟨obj, hobj⟩ := Option.ne_none_iff_exists'.mp (hlive i hi)
    simp [World.withFields, hobj]
  rw [h1, getInstancesBy_loc_eq (w.withFields g) ext _ _ hpt hlive']
  simp only [Option.map_some', cellOnLayer_withFields]
  rfl

/-- Witness for C20: the query "loc" = "2,3" on the layer owning 100 and 101,
both at cell (2, 3), returns 100 and then 101. -/
theorem getInstancesBy_loc_ordered_witness :
    (Layer.getInstancesBy twoInstanceWorld sampleExt "loc"
        (toString (2 : Int) ++ "," ++ toString (3 : Int))).map (fun r => r.1) =
      some ((Layer.getInstances twoInstanceWorld).filter
        (fun i => decide (cellOnLayer twoInstanceWorld sampleExt i = some ⟨2, 3, 0⟩))) ∧
    (Layer.getInstances twoInstanceWorld).filter
        (fun i => decide (cellOnLayer twoInstanceWorld sampleExt i = some ⟨2, 3, 0⟩)) =
      [100, 101] :=
  ⟨(getInstancesBy_loc_ordered twoInstanceWorld sampleExt 2 3 (by decide) (by decide)
      (by decide)).1, by decide⟩

/-! ## `getMinMaxCoordinates` -/

theorem minMax_step (coord min max : ModelCoordinate) :
    let min1 := if coord.x < min.x then { min with x := coord.x } else min
    let max1 := if coord.x > max.x then { max with x := coord.x } else max
    let min2 := if coord.y < min1.y then { min1 with y := coord.y } else min1
    let max2 := if coord.y > max1.y then { max1 with y := coord.y } else max1
    (min2.z = min.z ∧ max2.z = max.z) ∧
    (min2.x ≤ min.x ∧ min2.x ≤ coord.x ∧ (min2.x = min.x ∨ min2.x = coord.x)) ∧
    (max.x ≤ max2.x ∧ coord.x ≤ max2.x ∧ (max2.x = max.x ∨ max2.x = coord.x)) ∧
    (min2.y ≤ min.y ∧ min2.y ≤ coord.y ∧ (min2.y = min.y ∨ min2.y = coord.y)) ∧
    (max.y ≤ max2.y ∧ coord.y ≤ max2.y ∧ (max2.y = max.y ∨ max2.y = coord.y)) := by
  intro min1 max1 min2 max2
  simp only [min1, max1, min2, max2]
  refine ⟨⟨?_, ?_⟩, ⟨?_, ?_, ?_⟩, ⟨?_, ?_, ?_⟩, ⟨?_, ?_, ?_⟩, ⟨?_, ?_, ?_⟩⟩ <;>
    split_ifs <;> simp_all <;> omega

theorem minMaxLoop_spec (w : World) (ext : Collaborators) (layer : Option LayerPtr)
    (l : List InstancePtr) (hlive : ∀ i ∈ l, w.heap i ≠ none) :
    ∀ min max : ModelCoordinate, ∃ mn mx,
      Layer.getMinMaxCoordinates.loop w ext layer l min max = some (mn, mx) ∧
      (mn.z = min.z ∧ mx.z = max.z) ∧
      (mn.x ≤ min.x ∧ max.x ≤ mx.x ∧ mn.y ≤ min.y ∧ max.y ≤ mx.y) ∧
      (∀ i ∈ l, ∀ obj, w.heap i = some obj →
        mn.x ≤ (obj.getLocationRef.getLayerCoordinatesOn w.layer ext layer).x ∧
        (obj.getLocationRef.getLayerCoordinatesOn w.layer ext layer).x ≤ mx.x ∧
        mn.y ≤ (obj.getLocationRef.getLayerCoordinatesOn w.layer ext layer).y ∧
        (obj.getLocationRef.getLayerCoordinatesOn w.layer ext layer).y ≤ mx.y) ∧
      (mn.x = min.x ∨ ∃ i ∈ l, ∃ obj, w.heap i = some obj ∧
        (obj.getLocationRef.getLayerCoordinatesOn w.layer ext layer).x = mn.x) ∧
      (mx.x = max.x ∨ ∃ i ∈ l, ∃ obj, w.heap i = some obj ∧
        (obj.getLocationRef.getLayerCoordinatesOn w.layer ext layer).x = mx.x) ∧
      (mn.y = min.y ∨ ∃ i ∈ l, ∃ obj, w.heap i = some obj ∧
        (obj.getLocationRef.getLayerCoordinatesOn w.layer ext layer).y = mn.y) ∧
      (mx.y = max.y ∨ ∃ i ∈ l, ∃ obj, w.heap i = some obj ∧
        (obj.getLocationRef.getLayerCoordinatesOn w.layer ext layer).y = mx.y) := by
  induction l with
  | nil =>
    intro min max
    exact ⟨min, max, rfl, ⟨rfl, rfl⟩, ⟨le_refl _, le_refl _, le_refl _, le_refl _⟩,
      by simp, Or.inl rfl, Or.inl rfl, Or.inl rfl, Or.inl rfl⟩
  | cons x xs ih =>
    intro min max
    have hxs : ∀ i ∈ xs, w.heap i ≠ none := fun i hi => hlive i (by simp [hi])
    obtain ⟨obj, hobj⟩ := Option.ne_none_iff_exists'.mp (hlive x (by simp))
    have hstep := minMax_step (obj.getLocationRef.getLayerCoordinatesOn w.layer ext layer)
      min max
    simp only at hstep
    simp only [Layer.getMinMaxCoordinates.loop, hobj]
    generalize hcd : (obj.getLocationRef.getLayerCoordinatesOn w.layer ext layer) = coord
      at hstep ⊢
    generalize hmin2 : (if coord.y < (if coord.x < min.x then { min with x := coord.x }
      else min).y then { (if coord.x < min.x then { min with x := coord.x } else min) with
        y := coord.y } else (if coord.x < min.x then { min with x := coord.x } else min))
      = min2 at hstep ⊢
    generalize hmax2 : (if coord.y > (if coord.x > max.x then { max with x := coord.x }
      else max).y then { (if coord.x > max.x then { max with x := coord.x } else max) with
        y := coord.y } else (if coord.x > max.x then { max with x := coord.x } else max))
      = max2 at hstep ⊢
    obtain ⟨⟨hz1, hz2⟩, ⟨ha1, ha2, ha3⟩, ⟨hb1, hb2, hb3⟩, ⟨hc1, hc2, hc3⟩, ⟨hd1, hd2, hd3⟩⟩ :=
      hstep
    obtain ⟨mn, mx, hloop, ⟨hmz, hxz⟩, ⟨h1, h2, h3, h4⟩, hall, e1, e2, e3, e4⟩ := ih hxs min2 max2
    have hcoord : ∀ o, w.heap x = some o → o = obj := by
      intro o ho; rw [hobj] at ho; exact (Option.some.inj ho).symm
    refine ⟨mn, mx, hloop, ⟨by rw [hmz, hz1], by rw [hxz, hz2]⟩,
      ⟨by omega, by omega, by omega, by omega⟩, ?_, ?_, ?_, ?_, ?_⟩
    · intro i hi o ho
      rcases List.mem_cons.mp hi with e | e
      · subst e
        rw [hcoord o ho, hcd]
        exact ⟨by omega, by omega, by omega, by omega⟩
      · exact hall i e o ho
    · rcases e1 with e | ⟨i, hi, o, ho, e⟩
      · rcases ha3 with a | a
        · left; omega
        · right; exact ⟨x, by simp, obj, hobj, by rw [hcd]; omega⟩
      · right; exact ⟨i, by simp [hi], o, ho, e⟩
    · rcases e2 with e | ⟨i, hi, o, ho, e⟩
      · rcases hb3 with a | a
        · left; omega
        · right; exact ⟨x, by simp, obj, hobj, by rw [hcd]; omega⟩
      · right; exact ⟨i, by simp [hi], o, ho, e⟩
    · rcases e3 with e | ⟨i, hi, o, ho, e⟩
      · rcases hc3 with a | a
        · left; omega
        · right; exact ⟨x, by simp, obj, hobj, by rw [hcd]; omega⟩
      · right; exact ⟨i, by simp [hi], o, ho, e⟩
    · rcases e4 with e | ⟨i, hi, o, ho, e⟩
      · rcases hd3 with a | a
        · left; omega
        · right; exact ⟨x, by simp, obj, hobj, by rw [hcd]; omega⟩
      · right; exact ⟨i, by simp [hi], o, ho, e⟩

/-- C16: on a layer with at least one instance, all of them live objects,
`getMinMaxCoordinates` with the reference layer omitted returns (the access to
the first instance does not fail) and gives the same result as with the layer
itself passed; in the result `min.x`, `min.y` are the smallest and `max.x`,
`max.y` the largest x and y cell coordinates over all instances of the layer:
they bound the cell of every instance and each is the coordinate of some
instance. -/
theorem getMinMaxCoordinates_bounds (w : World) (ext : Collaborators)
    (hne : Layer.getInstances w ≠ [])
    (hlive : ∀ i ∈ Layer.getInstances w, w.heap i ≠ none) :
    ∃ min max, Layer.getMinMaxCoordinates w ext none = some (min, max) ∧
      Layer.getMinMaxCoordinates w ext (some w.layer.thisPtr) =
        Layer.getMinMaxCoordinates w ext none ∧
      (∀ i ∈ Layer.getInstances w, ∀ c, cellOnLayer w ext i = some c →
        min.x ≤ c.x ∧ c.x ≤ max.x ∧ min.y ≤ c.y ∧ c.y ≤ max.y) ∧
      (∃ i ∈ Layer.getInstances w, ∃ c, cellOnLayer w ext i = some c ∧ c.x = min.x) ∧
      (∃ i ∈ Layer.getInstances w, ∃ c, cellOnLayer w ext i = some c ∧ c.x = max.x) ∧
      (∃ i ∈ Layer.getInstances w, ∃ c, cellOnLayer w ext i = some c ∧ c.y = min.y) ∧
      (∃ i ∈ Layer.getInstances w, ∃ c, cellOnLayer w ext i = some c ∧ c.y = max.y) := by
  simp only [Layer.getInstances] at hne hlive ⊢
  obtain ⟨front, rest, hl⟩ := List.exists_cons_of_ne_nil hne
  obtain ⟨obj, hobj⟩ := Option.ne_none_iff_exists'.mp (hlive front (by simp [hl]))
  obtain ⟨mn, mx, hloop, _, _, hall, e1, e2, e3, e4⟩ :=
    minMaxLoop_spec w ext (some w.layer.thisPtr) w.layer.m_instances hlive
      (obj.getLocationRef.getLayerCoordinatesOn w.layer ext (some w.layer.thisPtr))
      (obj.getLocationRef.getLayerCoordinatesOn w.layer ext (some w.layer.thisPtr))
  have hfront : front ∈ w.layer.m_instances := by simp [hl]
  have hcell : ∀ i o, w.heap i = some o →
      cellOnLayer w ext i =
        some (o.getLocationRef.getLayerCoordinatesOn w.layer ext (some w.layer.thisPtr)) := by
    intro i o ho; simp [cellOnLayer, ho]
  have hnone : Layer.getMinMaxCoordinates w ext none = some (mn, mx) := by
    unfold Layer.getMinMaxCoordinates
    rw [hl] at hloop ⊢
    simp only [hobj, if_true]
    exact hloop
  have hsome : Layer.getMinMaxCoordinates w ext (some w.layer.thisPtr) = some (mn, mx) := by
    unfold Layer.getMinMaxCoordinates
    rw [hl] at hloop ⊢
    simp only [hobj, reduceCtorEq, if_false]
    exact hloop
  refine ⟨mn, mx, hnone, by rw [hsome, hnone], ?_, ?_, ?_, ?_, ?_⟩
  · intro i hi c hc
    obtain ⟨o, ho⟩ := Option.ne_none_iff_exists'.mp (hlive i hi)
    rw [hcell i o ho] at hc
    rw [← Option.some.inj hc]
    exact hall i hi o ho
  · rcases e1 with e | ⟨i, hi, o, ho, e⟩
    · exact ⟨front, hfront, _, hcell front obj hobj, e.symm⟩
    · exact ⟨i, hi, _, hcell i o ho, e⟩
  · rcases e2 with e | ⟨i, hi, o, ho, e⟩
    · exact ⟨front, hfront, _, hcell front obj hobj, e.symm⟩
    · exact ⟨i, hi, _, hcell i o ho, e⟩
  · rcases e3 with e | ⟨i, hi, o, ho, e⟩
    · exact ⟨front, hfront, _, hcell front obj hobj, e.symm⟩
    · exact ⟨i, hi, _, hcell i o ho, e⟩
  · rcases e4 with e | ⟨i, hi, o, ho, e⟩
    · exact ⟨front, hfront, _, hcell front obj hobj, e.symm⟩
    · exact ⟨i, hi, _, hcell i o ho, e⟩

/-- Witness for C16: for instances at the cells (0, 0), (5, 5) and (-2, 3) the
result is min = (-2, 0) and max = (5, 5), with z = 0. -/
theorem getMinMaxCoordinates_bounds_witness :
    Layer.getMinMaxCoordinates boxWorld sampleExt none = some (⟨-2, 0, 0⟩, ⟨5, 5, 0⟩) ∧
    ∃ min max, Layer.getMinMaxCoordinates boxWorld sampleExt none = some (min, max) ∧
      Layer.getMinMaxCoordinates boxWorld sampleExt (some boxWorld.layer.thisPtr) =
        Layer.getMinMaxCoordinates boxWorld sampleExt none ∧
      (∀ i ∈ Layer.getInstances boxWorld, ∀ c, cellOnLayer boxWorld sampleExt i = some c →
        min.x ≤ c.x ∧ c.x ≤ max.x ∧ min.y ≤ c.y ∧ c.y ≤ max.y) := by
  obtain ⟨min, max, h1, h2, h3, _⟩ :=
    getMinMaxCoordinates_bounds boxWorld sampleExt (by decide) (by decide)
  exact ⟨by decide, min, max, h1, h2, h3⟩

/-! ## States reached by creating and deleting: ownership and index -/

theorem CreateDeleteReachable.reachable {w : World} (h : CreateDeleteReachable w) :
    Reachable w := by
  induction h with
  | construct thisPtr identifier map grid heap =>
    exact Reachable.construct thisPtr identifier map grid heap
  | createInstance _ addr object p id fresh ih =>
    exact Reachable.createInstance ih addr object p id fresh
  | deleteInstance _ inst ih => exact Reachable.deleteInstance ih inst
  | addChangeListener _ listener ih => exact Reachable.addChangeListener ih listener
  | removeChangeListener _ listener ih => exact Reachable.removeChangeListener ih listener

theorem indexInSync_construct (thisPtr : LayerPtr) (identifier : String) (map : MapPtr)
    (grid : CellGrid) (heap : Heap) :
    IndexInSync ⟨Layer.construct thisPtr identifier map grid, heap, []⟩ :=
  ⟨by simp [Layer.construct], by simp [Layer.construct, InstanceTree.empty]⟩

theorem indexInSync_createInstance {w : World} (hc : Consistent w) (hw : IndexInSync w)
    (addr : InstancePtr) (object : ObjectPtr) (p : ExactModelCoordinate) (id : String)
    (fresh : w.heap addr = none) :
    IndexInSync (Layer.createInstance w addr object p id).2 := by
  have hnot : addr ∉ w.layer.m_instances := fun hmem => hc.live addr hmem fresh
  rw [createInstance_eq]
  constructor
  · dsimp only
    intro i hi
    by_cases hia : i = addr
    · subst hia
      exact ⟨Instance.create object ⟨some w.layer.thisPtr, p⟩ id, by simp, rfl⟩
    · have hi' : i ∈ w.layer.m_instances := by simpa [hia] using hi
      obtain ⟨obj, hobj, hlay⟩ := hw.owned i hi'
      exact ⟨obj, by simp [Function.update_noteq hia, hobj], hlay⟩
  · dsimp only
    intro c i
    simp only [InstanceTree.addInstance, List.mem_append, List.mem_singleton, Prod.mk.injEq]
    constructor
    · rintro (hmem | ⟨hcell, rfl⟩)
      · obtain ⟨hi, obj, hobj, hcl⟩ := (hw.entries c i).mp hmem
        have hia : i ≠ addr := fun e => hnot (e ▸ hi)
        exact ⟨Or.inl hi, obj, by simp [Function.update_noteq hia, hobj], hcl⟩
      · exact ⟨Or.inr rfl, Instance.create object ⟨some w.layer.thisPtr, p⟩ id, by simp,
          hcell.symm⟩
    · rintro ⟨hi | hi, obj, hobj, hcl⟩
      · have hia : i ≠ addr := fun e => hnot (e ▸ hi)
        left
        exact (hw.entries c i).mpr ⟨hi, obj, by simpa [Function.update_noteq hia] using hobj, hcl⟩
      · subst hi
        right
        have : obj = Instance.create object ⟨some w.layer.thisPtr, p⟩ id := by
          simpa using hobj.symm
        subst this
        exact ⟨hcl.symm, rfl⟩

theorem indexInSync_deleteInstance {w : World} (hc : Consistent w) (hw : IndexInSync w)
    (inst : InstancePtr) : IndexInSync (Layer.deleteInstance w inst) := by
  by_cases hmem : inst ∈ w.layer.m_instances
  · rw [deleteInstance_eq_of_mem w inst hmem]
    constructor
    · intro i hi
      have hi' : i ≠ inst ∧ i ∈ w.layer.m_instances := (hc.nodup.mem_erase_iff).mp hi
      obtain ⟨obj, hobj, hlay⟩ := hw.owned i hi'.2
      exact ⟨obj, by simp [Function.update_noteq hi'.1, hobj], hlay⟩
    · intro c i
      simp only [InstanceTree.removeInstance, List.mem_filter, decide_eq_true_eq]
      constructor
      · rintro ⟨hent, hne⟩
        obtain ⟨hi, obj, hobj, hcl⟩ := (hw.entries c i).mp hent
        exact ⟨(hc.nodup.mem_erase_iff).mpr ⟨hne, hi⟩, obj,
          by simp [Function.update_noteq hne, hobj], hcl⟩
      · rintro ⟨hi, obj, hobj, hcl⟩
        have hi' : i ≠ inst ∧ i ∈ w.layer.m_instances := (hc.nodup.mem_erase_iff).mp hi
        exact ⟨(hw.entries c i).mpr
          ⟨hi'.2, obj, by simpa [Function.update_noteq hi'.1] using hobj, hcl⟩, hi'.1⟩
  · rw [deleteInstance_eq_of_not_mem w inst hmem]
    exact ⟨hw.owned, hw.entries⟩

theorem indexInSync_removeChangeListener {w : World} (hw : IndexInSync w)
    (listener : ListenerPtr) : IndexInSync (Layer.removeChangeListener w listener) := by
  obtain ⟨ls, hls⟩ := removeChangeListener_loop_frame listener [] w.layer.m_changelisteners w
  unfold Layer.removeChangeListener
  rw [hls]
  exact ⟨hw.owned, hw.entries⟩

theorem CreateDeleteReachable.indexInSync {w : World} (h : CreateDeleteReachable w) :
    IndexInSync w := by
  induction h with
  | construct thisPtr identifier map grid heap =>
    exact indexInSync_construct thisPtr identifier map grid heap
  | createInstance hprev addr object p id fresh ih =>
    exact indexInSync_createInstance hprev.reachable.consistent ih addr object p id fresh
  | deleteInstance hprev inst ih =>
    exact indexInSync_deleteInstance hprev.reachable.consistent ih inst
  | addChangeListener _ listener ih => exact ⟨ih.owned, ih.entries⟩
  | removeChangeListener _ listener ih => exact indexInSync_removeChangeListener ih listener

theorem twoInstanceWorld_createDeleteReachable : CreateDeleteReachable twoInstanceWorld :=
  CreateDeleteReachable.createInstance
    (CreateDeleteReachable.createInstance
      (CreateDeleteReachable.addChangeListener
        (CreateDeleteReachable.addChangeListener
          (CreateDeleteReachable.construct 1 "ground" 9 unitGrid otherLayerHeap) 70) 71)
      100 5 ⟨2, 3, 0⟩ "e1" (by decide))
    101 6 ⟨2, 3, 0⟩ "e2" (by decide)

/-- C17: ownership closure is an invariant. After any sequence of
`createInstance` and `deleteInstance` calls on a freshly constructed layer L,
every instance in `getInstances()` is a live object whose location has L as its
layer. -/
theorem ownership_closure (w : World) (hw : CreateDeleteReachable w) :
    ∀ i ∈ Layer.getInstances w, ∃ obj, w.heap i = some obj ∧
      obj.getLocationRef.getLayer = some w.layer.thisPtr :=
  hw.indexInSync.owned

/-- Witness for C17: the layer at address 1 after creating 100 and 101. -/
theorem ownership_closure_witness :
    CreateDeleteReachable twoInstanceWorld ∧
    ∀ i ∈ Layer.getInstances twoInstanceWorld, ∃ obj, twoInstanceWorld.heap i = some obj ∧
      obj.getLocationRef.getLayer = some twoInstanceWorld.layer.thisPtr :=
  ⟨twoInstanceWorld_createDeleteReachable,
    ownership_closure twoInstanceWorld twoInstanceWorld_createDeleteReachable⟩

/-! ## `cellContainsBlockingInstance` -/

theorem blockingLoop_spec (w : World) (ext : Collaborators) (c : ModelCoordinate)
    (l : List InstancePtr) (hlive : ∀ j ∈ l, w.heap j ≠ none) :
    ∀ b0 : Bool, ∃ b, Layer.cellContainsBlockingInstance.loop w ext c l b0 = some b ∧
      (b = true ↔ b0 = true ∨ ∃ j ∈ l, ∃ obj, w.heap j = some obj ∧
        ext.isBlocking obj.getObject = true ∧
        obj.getLocationRef.getLayerCoordinatesOn w.layer ext obj.getLocationRef.getLayer = c) := by
  induction l with
  | nil =>
    intro b0
    exact ⟨b0, rfl, by simp⟩
  | cons x xs ih =>
    intro b0
    have hxs : ∀ j ∈ xs, w.heap j ≠ none := fun j hj => hlive j (by simp [hj])
    obtain ⟨obj, hobj⟩ := Option.ne_none_iff_exists'.mp (hlive x (by simp))
    by_cases hc : ext.isBlocking obj.getObject = true ∧
        obj.getLocationRef.getLayerCoordinatesOn w.layer ext obj.getLocationRef.getLayer = c
    · obtain ⟨b, hb, hiff⟩ := ih hxs true
      have hloop : Layer.cellContainsBlockingInstance.loop w ext c (x :: xs) b0 = some b := by
        simp only [Layer.cellContainsBlockingInstance.loop, hobj, hc, and_self, if_true]
        exact hb
      refine ⟨b, hloop, ?_⟩
      have hbt : b = true := hiff.mpr (Or.inl rfl)
      constructor
      · intro _
        exact Or.inr ⟨x, by simp, obj, hobj, hc.1, hc.2⟩
      · intro _
        exact hbt
    · obtain ⟨b, hb, hiff⟩ := ih hxs b0
      have hloop : Layer.cellContainsBlockingInstance.loop w ext c (x :: xs) b0 = some b := by
        simp only [Layer.cellContainsBlockingInstance.loop, hobj, hc, if_false]
        exact hb
      refine ⟨b, hloop, ?_⟩
      rw [hiff]
      constructor
      · rintro (h | ⟨j, hj, o, ho, h1, h2⟩)
        · exact Or.inl h
        · exact Or.inr ⟨j, by simp [hj], o, ho, h1, h2⟩
      · rintro (h | ⟨j, hj, o, ho, h1, h2⟩)
        · exact Or.inl h
        · rcases List.mem_cons.mp hj with e | e
          · subst e
            rw [hobj] at ho
            have : obj = o := Option.some.inj ho
            subst this
            exact absurd ⟨h1, h2⟩ hc
          · exact Or.inr ⟨j, e, o, ho, h1, h2⟩

theorem mem_findInstances_zero (t : InstanceTree) (c : ModelCoordinate) (j : InstancePtr) :
    j ∈ t.findInstances c 0 0 ↔ ∃ c', (c', j) ∈ t.entries ∧ c'.x = c.x ∧ c'.y = c.y := by
  simp only [InstanceTree.findInstances, List.mem_map, List.mem_filter, decide_eq_true_eq,
    sub_zero, add_zero]
  constructor
  · rintro ⟨⟨c', j'⟩, ⟨hmem, h1, h2, h3, h4⟩, rfl⟩
    exact ⟨c', hmem, le_antisymm h2 h1, le_antisymm h4 h3⟩
  · rintro ⟨c', hmem, hx, hy⟩
    exact ⟨(c', j), ⟨hmem, by simp [hx, hy]⟩, rfl⟩

/-- C15: `cellContainsBlockingInstance(c)` returns true if and only if the
query of the spatial index at `c` with radius (0, 0) yields at least one
instance whose template is blocking and whose cell coordinate equals `c` (the
instances the query yields being live objects). Consequently, in a state where
the index is consistent with the instance sequence, it returns true exactly
when the layer holds a blocking instance at cell `c`. -/
theorem cellContainsBlockingInstance_iff (w : World) (ext : Collaborators)
    (c : ModelCoordinate) :
    ((∀ j ∈ w.layer.m_instanceTree.findInstances c 0 0, w.heap j ≠ none) →
      ∃ b, Layer.cellContainsBlockingInstance w ext c = some b ∧
        (b = true ↔ ∃ j ∈ w.layer.m_instanceTree.findInstances c 0 0, ∃ obj,
          w.heap j = some obj ∧ ext.isBlocking obj.getObject = true ∧
          obj.getLocationRef.getLayerCoordinatesOn w.layer ext obj.getLocationRef.getLayer
            = c)) ∧
    (IndexInSync w →
      ∃ b, Layer.cellContainsBlockingInstance w ext c = some b ∧
        (b = true ↔ ∃ i ∈ Layer.getInstances w, ∃ obj,
          w.heap i = some obj ∧ ext.isBlocking obj.getObject = true ∧ cellOf w obj = c)) := by
  have part1 : (∀ j ∈ w.layer.m_instanceTree.findInstances c 0 0, w.heap j ≠ none) →
      ∃ b, Layer.cellContainsBlockingInstance w ext c = some b ∧
        (b = true ↔ ∃ j ∈ w.layer.m_instanceTree.findInstances c 0 0, ∃ obj,
          w.heap j = some obj ∧ ext.isBlocking obj.getObject = true ∧
          obj.getLocationRef.getLayerCoordinatesOn w.layer ext obj.getLocationRef.getLayer
            = c) := by
    intro hlive
    obtain ⟨b, hb, hiff⟩ := blockingLoop_spec w ext c _ hlive false
    exact ⟨b, hb, by simpa using hiff⟩
  refine ⟨part1, ?_⟩
  intro hsync
  have hown : ∀ i ∈ w.layer.m_instances, ∀ obj, w.heap i = some obj →
      obj.getLocationRef.getLayerCoordinatesOn w.layer ext obj.getLocationRef.getLayer =
        cellOf w obj := by
    intro i hi obj hobj
    obtain ⟨o, ho, hlay⟩ := hsync.owned i hi
    rw [hobj] at ho
    have : obj = o := Option.some.inj ho
    subst this
    simp [Location.getLayerCoordinatesOn, hlay, cellOf, Location.getLayer] at hlay ⊢
    simp [hlay]
  have hq : ∀ j ∈ w.layer.m_instanceTree.findInstances c 0 0, j ∈ w.layer.m_instances := by
    intro j hj
    obtain ⟨c', hmem, _, _⟩ := (mem_findInstances_zero _ c j).mp hj
    exact ((hsync.entries c' j).mp hmem).1
  have hlive : ∀ j ∈ w.layer.m_instanceTree.findInstances c 0 0, w.heap j ≠ none := by
    intro j hj
    obtain ⟨o, ho, _⟩ := hsync.owned j (hq j hj)
    simp [ho]
  obtain ⟨b, hb, hiff⟩ := part1 hlive
  refine ⟨b, hb, ?_⟩
  rw [hiff]
  constructor
  · rintro ⟨j, hj, obj, hobj, hbl, hcell⟩
    exact ⟨j, hq j hj, obj, hobj, hbl, by rw [← hown j (hq j hj) obj hobj]; exact hcell⟩
  · rintro ⟨i, hi, obj, hobj, hbl, hcell⟩
    refine ⟨i, ?_, obj, hobj, hbl, by rw [hown i hi obj hobj]; exact hcell⟩
    exact (mem_findInstances_zero _ c i).mpr
      ⟨c, (hsync.entries c i).mpr ⟨hi, obj, hobj, hcell⟩, rfl, rfl⟩

/-- Witness for C15, the scenario of the specification: with only the
non-blocking instance 100 at cell (2, 3) the answer is false; after the blocking
instance 101 is created there it is true; after 101 is deleted it is false
again. The middle state is reached by creating instances, so its index is
consistent, and there the answer is true exactly when the layer holds a blocking
instance at the cell. -/
theorem cellContainsBlockingInstance_iff_witness :
    Layer.cellContainsBlockingInstance
      (Layer.createInstance listenedWorld 100 5 ⟨2, 3, 0⟩ "e1").2 sampleExt ⟨2, 3, 0⟩ =
        some false ∧
    Layer.cellContainsBlockingInstance twoInstanceWorld sampleExt ⟨2, 3, 0⟩ = some true ∧
    Layer.cellContainsBlockingInstance (Layer.deleteInstance twoInstanceWorld 101) sampleExt
      ⟨2, 3, 0⟩ = some false ∧
    IndexInSync twoInstanceWorld ∧
    ∃ b, Layer.cellContainsBlockingInstance twoInstanceWorld sampleExt ⟨2, 3, 0⟩ = some b ∧
      (b = true ↔ ∃ i ∈ Layer.getInstances twoInstanceWorld, ∃ obj,
        twoInstanceWorld.heap i = some obj ∧ sampleExt.isBlocking obj.getObject = true ∧
        cellOf twoInstanceWorld obj = ⟨2, 3, 0⟩) :=
  ⟨by decide, by decide, by decide, twoInstanceWorld_createDeleteReachable.indexInSync,
    (cellContainsBlockingInstance_iff twoInstanceWorld sampleExt ⟨2, 3, 0⟩).2
      twoInstanceWorld_createDeleteReachable.indexInSync⟩

/-! ## Silent passes, double registration, and the z component of the bounding box -/

theorem update_events_of_quiet (w : World) (curticks : Nat) (upd : InstanceUpdate)
    (hquiet : ∀ i ∈ w.layer.m_instances, upd.result curticks i = ICHANGE_NO_CHANGES) :
    World.eventsSince w (Layer.update w curticks upd).2 = [] ∧
      (Layer.update w curticks upd).1 = w.layer.m_changed ∧
      (Layer.update w curticks upd).2.layer.m_changedinstances = [] := by
  have hnone : changedOf upd curticks w.layer.m_instances = [] := by
    apply List.filter_eq_nil_iff.mpr
    intro i hi
    simpa using hquiet i hi
  refine ⟨?_, ?_, ?_⟩
  · simp [World.eventsSince, update_log, hnone]
  · rw [update_retval, hnone]; simp
  · rw [update_layer, hnone]

/-- C21: `update` notifies no listener when the changed-instance list of the
pass is empty, even when it returns true. In a pass in which no instance
reports a change no callback at all is issued, whatever listeners are
registered, and the value returned is the changed flag as it stood before; so a
pass that follows a `createInstance` or a `deleteInstance` call returns true
while issuing no `onLayerChanged` callback. -/
theorem update_silent_when_nothing_changed (w : World) (curticks : Nat) (upd : InstanceUpdate)
    (addr : InstancePtr) (object : ObjectPtr) (p : ExactModelCoordinate) (id : String)
    (inst : InstancePtr) :
    ((∀ i ∈ Layer.getInstances w, upd.result curticks i = ICHANGE_NO_CHANGES) →
      World.eventsSince w (Layer.update w curticks upd).2 = [] ∧
      (Layer.update w curticks upd).1 = w.layer.m_changed) ∧
    ((∀ i ∈ Layer.getInstances (Layer.createInstance w addr object p id).2,
        upd.result curticks i = ICHANGE_NO_CHANGES) →
      (Layer.update (Layer.createInstance w addr object p id).2 curticks upd).1 = true ∧
      World.eventsSince (Layer.createInstance w addr object p id).2
        (Layer.update (Layer.createInstance w addr object p id).2 curticks upd).2 = [] ∧
      (Layer.createInstance w addr object p id).2.layer.m_changelisteners =
        w.layer.m_changelisteners) ∧
    ((∀ i ∈ Layer.getInstances (Layer.deleteInstance w inst),
        upd.result curticks i = ICHANGE_NO_CHANGES) →
      (Layer.update (Layer.deleteInstance w inst) curticks upd).1 = true ∧
      World.eventsSince (Layer.deleteInstance w inst)
        (Layer.update (Layer.deleteInstance w inst) curticks upd).2 = [] ∧
      (Layer.deleteInstance w inst).layer.m_changelisteners = w.layer.m_changelisteners) := by
  refine ⟨?_, ?_, ?_⟩
  · intro hquiet
    obtain ⟨h1, h2, _⟩ := update_events_of_quiet w curticks upd hquiet
    exact ⟨h1, h2⟩
  · intro hquiet
    obtain ⟨h1, h2, _⟩ :=
      update_events_of_quiet (Layer.createInstance w addr object p id).2 curticks upd hquiet
    refine ⟨?_, h1, ?_⟩
    · rw [h2, createInstance_eq]
    · rw [createInstance_eq]
  · intro hquiet
    obtain ⟨h1, h2, _⟩ :=
      update_events_of_quiet (Layer.deleteInstance w inst) curticks upd hquiet
    have hflag : (Layer.deleteInstance w inst).layer.m_changed = true ∧
        (Layer.deleteInstance w inst).layer.m_changelisteners = w.layer.m_changelisteners := by
      by_cases hmem : inst ∈ w.layer.m_instances
      · rw [deleteInstance_eq_of_mem w inst hmem]; exact ⟨rfl, rfl⟩
      · rw [deleteInstance_eq_of_not_mem w inst hmem]; exact ⟨rfl, rfl⟩
    exact ⟨by rw [h2, hflag.1], h1, hflag.2⟩

/-- Witness for C21: the layer with listeners 70 and 71 has just created the
instance 101 (and, in the second case, deleted the instance 100); the quiet
pass that follows returns true and calls no listener. -/
theorem update_silent_when_nothing_changed_witness :
    twoInstanceWorld.layer.m_changelisteners = [70, 71] ∧
    (Layer.update twoInstanceWorld 40 quietUpdate).1 = true ∧
    World.eventsSince twoInstanceWorld (Layer.update twoInstanceWorld 40 quietUpdate).2 = [] ∧
    (Layer.update (Layer.deleteInstance twoInstanceWorld 100) 40 quietUpdate).1 = true ∧
    World.eventsSince (Layer.deleteInstance twoInstanceWorld 100)
      (Layer.update (Layer.deleteInstance twoInstanceWorld 100) 40 quietUpdate).2 = [] :=
  ⟨by decide,
    ((update_silent_when_nothing_changed
      (Layer.createInstance listenedWorld 100 5 ⟨2, 3, 0⟩ "e1").2 40 quietUpdate
      101 6 ⟨2, 3, 0⟩ "e2" 100).2.1 (fun _ _ => rfl)).1,
    ((update_silent_when_nothing_changed
      (Layer.createInstance listenedWorld 100 5 ⟨2, 3, 0⟩ "e1").2 40 quietUpdate
      101 6 ⟨2, 3, 0⟩ "e2" 100).2.1 (fun _ _ => rfl)).2.1,
    ((update_silent_when_nothing_changed twoInstanceWorld 40 quietUpdate
      101 6 ⟨2, 3, 0⟩ "e2" 100).2.2 (fun _ _ => rfl)).1,
    ((update_silent_when_nothing_changed twoInstanceWorld 40 quietUpdate
      101 6 ⟨2, 3, 0⟩ "e2" 100).2.2 (fun _ _ => rfl)).2.1⟩

theorem removeChangeListener_eq (w : World) (listener : ListenerPtr) :
    Layer.removeChangeListener w listener =
      { w with layer := { w.layer with
          m_changelisteners := w.layer.m_changelisteners.erase listener } } := by
  by_cases h : listener ∈ w.layer.m_changelisteners
  · have := removeChangeListener_loop_mem listener [] w.layer.m_changelisteners w h
    simpa [Layer.removeChangeListener] using this
  · have := removeChangeListener_loop_not_mem listener [] w.layer.m_changelisteners w h
    unfold Layer.removeChangeListener
    rw [this, List.erase_of_not_mem h]

theorem calls_to_listener (ls : List ListenerPtr) (cb : Callback) (l : ListenerPtr) :
    (ls.map (fun a => (a, cb))).filter (fun c => decide (c.1 = l)) =
      List.replicate (ls.count l) (l, cb) := by
  induction ls with
  | nil => simp
  | cons x xs ih =>
    by_cases hx : x = l
    · subst hx
      simp [List.filter_cons, ih, List.replicate_succ]
    · have hc : (x :: xs).count l = xs.count l := by
        simp [List.count_cons, hx]
      simp [List.filter_cons, hx, ih, hc]

/-- C22: `removeChangeListener` removes at most one registration, the earliest
one: the listener list afterwards is the list before with the first occurrence
of the listener erased, the other entries in the same order, and nothing else
in the state changes. The number of registrations of the listener goes down by
one (or stays 0); so a listener registered twice is still registered after one
removal, and each following `createInstance` or `deleteInstance` call issues
exactly one callback to it. -/
theorem removeChangeListener_erases_first (w : World) (listener : ListenerPtr) :
    (Layer.removeChangeListener w listener).layer.m_changelisteners =
      w.layer.m_changelisteners.erase listener ∧
    Layer.removeChangeListener w listener =
      { w with layer := { w.layer with
          m_changelisteners := w.layer.m_changelisteners.erase listener } } ∧
    (Layer.removeChangeListener w listener).layer.m_changelisteners.count listener =
      w.layer.m_changelisteners.count listener - 1 ∧
    (∀ other, other ≠ listener →
      (Layer.removeChangeListener w listener).layer.m_changelisteners.count other =
        w.layer.m_changelisteners.count other) ∧
    (w.layer.m_changelisteners.count listener = 2 →
      listener ∈ (Layer.removeChangeListener w listener).layer.m_changelisteners ∧
      (∀ (addr : InstancePtr) (object : ObjectPtr) (p : ExactModelCoordinate) (id : String),
        (callsOf (World.eventsSince (Layer.removeChangeListener w listener)
          (Layer.createInstance (Layer.removeChangeListener w listener) addr object p
            id).2)).filter (fun c => decide (c.1 = listener)) =
          [(listener, Callback.onInstanceCreate w.layer.thisPtr addr)]) ∧
      (∀ inst : InstancePtr,
        (callsOf (World.eventsSince (Layer.removeChangeListener w listener)
          (Layer.deleteInstance (Layer.removeChangeListener w listener) inst))).filter
            (fun c => decide (c.1 = listener)) =
          [(listener, Callback.onInstanceDelete w.layer.thisPtr inst)])) := by
  have heq := removeChangeListener_eq w listener
  have hls : (Layer.removeChangeListener w listener).layer.m_changelisteners =
      w.layer.m_changelisteners.erase listener := by rw [heq]
  have hthis : (Layer.removeChangeListener w listener).layer.thisPtr = w.layer.thisPtr := by
    rw [heq]
  have hcount : (w.layer.m_changelisteners.erase listener).count listener =
      w.layer.m_changelisteners.count listener - 1 := List.count_erase_self _ _
  refine ⟨hls, heq, ?_, ?_, ?_⟩
  · rw [hls]; exact hcount
  · intro other hne
    rw [hls]
    exact List.count_erase_of_ne hne _
  · intro h2
    have h1 : (w.layer.m_changelisteners.erase listener).count listener = 1 := by
      rw [hcount, h2]
    refine ⟨?_, ?_, ?_⟩
    · rw [hls]
      exact List.count_pos_iff.mp (by rw [h1]; exact Nat.one_pos)
    · intro addr object p id
      rw [createInstance_events, hls, hthis, calls_to_listener, h1]
      rfl
    · intro inst
      rw [deleteInstance_events, callsOf_map, hls, hthis, calls_to_listener, h1]
      rfl

/-- Witness for C22: the listener 70 is registered twice and removed once; it is
still registered, and the creation of an instance calls it exactly once. -/
theorem removeChangeListener_erases_first_witness :
    doubleListenedWorld.layer.m_changelisteners.count 70 = 2 ∧
    70 ∈ (Layer.removeChangeListener doubleListenedWorld 70).layer.m_changelisteners ∧
    (callsOf (World.eventsSince (Layer.removeChangeListener doubleListenedWorld 70)
      (Layer.createInstance (Layer.removeChangeListener doubleListenedWorld 70) 100 5
        ⟨2, 3, 0⟩ "e1").2)).filter (fun c => decide (c.1 = 70)) =
      [(70, Callback.onInstanceCreate doubleListenedWorld.layer.thisPtr 100)] :=
  ⟨by decide,
    ((removeChangeListener_erases_first doubleListenedWorld 70).2.2.2.2 (by decide)).1,
    ((removeChangeListener_erases_first doubleListenedWorld 70).2.2.2.2 (by decide)).2.1
      100 5 ⟨2, 3, 0⟩ "e1"⟩

/-- C23: on a layer with at least one instance, all of them live objects, and
for any reference layer (null standing for the layer itself), the z components
of both `min` and `max` returned by `getMinMaxCoordinates` equal the z cell
coordinate of the first instance of the owned sequence, whatever the z
coordinates of the other instances are; in x and y, `min` is less than or equal
to `max` and the cell coordinate of every instance lies between them. -/
theorem getMinMaxCoordinates_z_of_first (w : World) (ext : Collaborators)
    (layer : Option LayerPtr) (hne : Layer.getInstances w ≠ [])
    (hlive : ∀ i ∈ Layer.getInstances w, w.heap i ≠ none) :
    ∃ min max front first,
      Layer.getMinMaxCoordinates w ext layer = some (min, max) ∧
      (Layer.getInstances w).head? = some front ∧ w.heap front = some first ∧
      min.z = (first.getLocationRef.getLayerCoordinatesOn w.layer ext
        (if layer = none then some w.layer.thisPtr else layer)).z ∧
      max.z = (first.getLocationRef.getLayerCoordinatesOn w.layer ext
        (if layer = none then some w.layer.thisPtr else layer)).z ∧
      min.x ≤ max.x ∧ min.y ≤ max.y ∧
      (∀ i ∈ Layer.getInstances w, ∀ obj, w.heap i = some obj →
        min.x ≤ (obj.getLocationRef.getLayerCoordinatesOn w.layer ext
          (if layer = none then some w.layer.thisPtr else layer)).x ∧
        (obj.getLocationRef.getLayerCoordinatesOn w.layer ext
          (if layer = none then some w.layer.thisPtr else layer)).x ≤ max.x ∧
        min.y ≤ (obj.getLocationRef.getLayerCoordinatesOn w.layer ext
          (if layer = none then some w.layer.thisPtr else layer)).y ∧
        (obj.getLocationRef.getLayerCoordinatesOn w.layer ext
          (if layer = none then some w.layer.thisPtr else layer)).y ≤ max.y) := by
  simp only [Layer.getInstances] at hne hlive ⊢
  obtain ⟨front, rest, hl⟩ := List.exists_cons_of_ne_nil hne
  obtain ⟨first, hfirst⟩ := Option.ne_none_iff_exists'.mp (hlive front (by simp [hl]))
  obtain ⟨mn, mx, hloop, ⟨hz1, hz2⟩, ⟨h1, h2, h3, h4⟩, hall, _⟩ :=
    minMaxLoop_spec w ext (if layer = none then some w.layer.thisPtr else layer)
      w.layer.m_instances hlive
      (first.getLocationRef.getLayerCoordinatesOn w.layer ext
        (if layer = none then some w.layer.thisPtr else layer))
      (first.getLocationRef.getLayerCoordinatesOn w.layer ext
        (if layer = none then some w.layer.thisPtr else layer))
  have hres : Layer.getMinMaxCoordinates w ext layer = some (mn, mx) := by
    unfold Layer.getMinMaxCoordinates
    rw [hl] at hloop ⊢
    simp only [hfirst]
    exact hloop
  exact ⟨mn, mx, front, first, hres, by simp [hl], hfirst, hz1, hz2, le_trans h1 h2,
    le_trans h3 h4, hall⟩

/-- Witness for C23: for instances at the cells (0, 0, 7), (5, 5, 1) and
(-2, 3, 9) the result is min = (-2, 0, 7) and max = (5, 5, 7): both z components
are the 7 of the first instance, although 1 and 9 occur. -/
theorem getMinMaxCoordinates_z_of_first_witness :
    Layer.getMinMaxCoordinates towerWorld sampleExt none = some (⟨-2, 0, 7⟩, ⟨5, 5, 7⟩) ∧
    ∃ min max front first,
      Layer.getMinMaxCoordinates towerWorld sampleExt none = some (min, max) ∧
      (Layer.getInstances towerWorld).head? = some front ∧
      towerWorld.heap front = some first ∧
      min.z = (first.getLocationRef.getLayerCoordinatesOn towerWorld.layer sampleExt
        (if (none : Option LayerPtr) = none then some towerWorld.layer.thisPtr else none)).z ∧
      max.z = (first.getLocationRef.getLayerCoordinatesOn towerWorld.layer sampleExt
        (if (none : Option LayerPtr) = none then some towerWorld.layer.thisPtr else none)).z := by
  obtain ⟨min, max, front, first, h1, h2, h3, h4, h5, _⟩ :=
    getMinMaxCoordinates_z_of_first towerWorld sampleExt none (by decide) (by decide)
  exact ⟨by decide, min, max, front, first, h1, h2, h3, h4, h5⟩

/-! ## Fan-out with listeners that call back into the layer -/

theorem callWith_log (w : World) (react : Reaction) (listener : ListenerPtr) (cb : Callback) :
    (w.callWith react listener cb).log = w.log ++ [⟨listener, cb, w.layer, w.heap⟩] := rfl

theorem callWith_thisPtr (w : World) (react : Reaction) (listener : ListenerPtr)
    (cb : Callback) : (w.callWith react listener cb).layer.thisPtr = w.layer.thisPtr := rfl

theorem callWith_listeners (w : World) (react : Reaction) (hkeep : react.KeepsListeners)
    (listener : ListenerPtr) (cb : Callback) :
    (w.callWith react listener cb).layer.m_changelisteners = w.layer.m_changelisteners :=
  hkeep listener cb w.layer w.heap

theorem fanOut_spec (react : Reaction) (hkeep : react.KeepsListeners) (cb : World → Callback) :
    ∀ (fuel i : Nat) (w : World), i ≤ w.layer.m_changelisteners.length →
      w.layer.m_changelisteners.length - i < fuel →
      ∃ w' es, Layer.fanOut react cb fuel i w = some w' ∧
        w'.log = w.log ++ es ∧
        w'.layer.m_changelisteners = w.layer.m_changelisteners ∧
        w'.layer.thisPtr = w.layer.thisPtr ∧
        es.map (fun e => e.listener) = w.layer.m_changelisteners.drop i ∧
        ∀ e ∈ es, ∃ v : World, e.call = cb v ∧ e.layer = v.layer ∧ e.heap = v.heap ∧
          v.layer.thisPtr = w.layer.thisPtr := by
  intro fuel
  induction fuel with
  | zero => intro i w _ h; exact absurd h (Nat.not_lt_zero _)
  | succ fuel ih =>
    intro i w hle hfuel
    by_cases hi : i = w.layer.m_changelisteners.length
    · refine ⟨w, [], by simp [Layer.fanOut, hi], by simp, rfl, rfl, by simp [hi], by simp⟩
    · have hlt : i < w.layer.m_changelisteners.length := lt_of_le_of_ne hle hi
      have hget : w.layer.m_changelisteners[i]? = some (w.layer.m_changelisteners[i]) :=
        List.getElem?_eq_getElem hlt
      have hl := callWith_listeners w react hkeep (w.layer.m_changelisteners[i]) (cb w)
      obtain ⟨w', es, hrun, hlog, hls, hthis, hmap, hall⟩ :=
        ih (i + 1) (w.callWith react (w.layer.m_changelisteners[i]) (cb w))
          (by rw [hl]; exact hlt) (by rw [hl]; omega)
      refine ⟨w', ⟨w.layer.m_changelisteners[i], cb w, w.layer, w.heap⟩ :: es, ?_, ?_, ?_, ?_,
        ?_, ?_⟩
      · simp only [Layer.fanOut, hi, if_false, hget]
        exact hrun
      · rw [hlog, callWith_log]; simp
      · rw [hls, hl]
      · rw [hthis, callWith_thisPtr]
      · rw [List.map_cons, hmap, hl]
        exact (List.drop_eq_getElem_cons hlt).symm
      · intro e he
        rcases List.mem_cons.mp he with rfl | he'
        · exact ⟨w, rfl, rfl, rfl, rfl⟩
        · obtain ⟨v, h1, h2, h3, h4⟩ := hall e he'
          exact ⟨v, h1, h2, h3, by rw [h4, callWith_thisPtr]⟩

theorem fanOut_passive (cb : World → Callback)
    (hcb : ∀ (v : World) (l : ListenerPtr) (c : Callback), cb (v.call l c) = cb v) :
    ∀ (fuel i : Nat) (w : World), i ≤ w.layer.m_changelisteners.length →
      w.layer.m_changelisteners.length - i < fuel →
      Layer.fanOut Reaction.passive cb fuel i w =
        some { w with log := w.log ++ (w.layer.m_changelisteners.drop i).map (fun l =>
          ⟨l, cb w, w.layer, w.heap⟩) } := by
  intro fuel
  induction fuel with
  | zero => intro i w _ h; exact absurd h (Nat.not_lt_zero _)
  | succ fuel ih =>
    intro i w hle hfuel
    by_cases hi : i = w.layer.m_changelisteners.length
    · simp [Layer.fanOut, hi]
    · have hlt : i < w.layer.m_changelisteners.length := lt_of_le_of_ne hle hi
      have hget : w.layer.m_changelisteners[i]? = some (w.layer.m_changelisteners[i]) :=
        List.getElem?_eq_getElem hlt
      have hcall : w.callWith Reaction.passive (w.layer.m_changelisteners[i]) (cb w) =
          w.call (w.layer.m_changelisteners[i]) (cb w) := rfl
      have hrec := ih (i + 1) (w.call (w.layer.m_changelisteners[i]) (cb w)) hlt
        (by show w.layer.m_changelisteners.length - (i + 1) < fuel; omega)
      simp only [Layer.fanOut, hi, if_false, hget, hcall, hrec, hcb]
      rw [List.drop_eq_getElem_cons hlt]
      simp only [World.call, List.map_cons, List.append_assoc, List.singleton_append]

theorem createInstanceLive_passive (fuel : Nat) (w : World) (addr : InstancePtr)
    (object : ObjectPtr) (p : ExactModelCoordinate) (id : String)
    (hfuel : w.layer.m_changelisteners.length < fuel) :
    Layer.createInstanceLive Reaction.passive fuel w addr object p id =
      some (Layer.createInstance w addr object p id) := by
  unfold Layer.createInstanceLive
  simp only
  rw [fanOut_passive (fun v => Callback.onInstanceCreate v.layer.thisPtr addr)
    (fun _ _ _ => rfl) fuel 0 _ (Nat.zero_le _) (by simpa using hfuel)]
  simp [Layer.createInstance, createInstance_notifyLoop_eq]

theorem deleteInstanceLive_passive (fuel : Nat) (w : World) (inst : InstancePtr)
    (hfuel : w.layer.m_changelisteners.length < fuel) :
    Layer.deleteInstanceLive Reaction.passive fuel w inst =
      some (Layer.deleteInstance w inst) := by
  unfold Layer.deleteInstanceLive
  rw [fanOut_passive (fun v => Callback.onInstanceDelete v.layer.thisPtr inst)
    (fun _ _ _ => rfl) fuel 0 _ (Nat.zero_le _) (by simpa using hfuel)]
  simp [Layer.deleteInstance, deleteInstance_notifyLoop_eq]

theorem updateLive_passive (fuel : Nat) (w : World) (curticks : Nat) (upd : InstanceUpdate)
    (hfuel : w.layer.m_changelisteners.length < fuel) :
    Layer.updateLive Reaction.passive fuel w curticks upd =
      some (Layer.update w curticks upd) := by
  unfold Layer.updateLive Layer.update
  simp only
  by_cases hc : changedOf upd curticks w.layer.m_instances = []
  · simp [instanceLoop_layer, hc]
  · have hlen : (Layer.update.instanceLoop upd curticks w.layer.m_instances
        { w with layer := { w.layer with m_changedinstances := [] } }).layer.m_changelisteners.length
          < fuel := by
      rw [instanceLoop_layer]; exact hfuel
    rw [fanOut_passive
      (fun v => Callback.onLayerChanged v.layer.thisPtr v.layer.m_changedinstances)
      (fun _ _ _ => rfl) fuel 0 _ (Nat.zero_le _) (by simpa using hlen)]
    simp [instanceLoop_layer, hc, update_notifyLoop_eq]

theorem callsOf_of_uniform (cb0 : Callback) :
    ∀ (es : List Event) (regs : List ListenerPtr),
      es.map (fun e => e.listener) = regs → (∀ e ∈ es, e.call = cb0) →
      callsOf es = regs.map (fun l => (l, cb0)) := by
  intro es
  induction es with
  | nil => intro regs h _; subst h; rfl
  | cons e es ih =>
    intro regs h hall
    subst h
    have hrest := ih (es.map (fun e => e.listener)) rfl (fun x hx => hall x (by simp [hx]))
    have he : e.call = cb0 := hall e (by simp)
    simp only [callsOf, List.map_cons, List.map_map] at hrest ⊢
    rw [hrest, he]

theorem length_filter_listener (l : ListenerPtr) (es : List Event) :
    (es.filter (fun e => decide (e.listener = l))).length =
      (es.map (fun e => e.listener)).count l := by
  induction es with
  | nil => rfl
  | cons e es ih =>
    by_cases h : e.listener = l
    · simp [List.filter_cons, h, ih]
    · simp [List.filter_cons, h, ih, List.count_cons]

theorem eventsSince_of_log (w w' : World) (es : List Event) (h : w'.log = w.log ++ es) :
    World.eventsSince w w' = es := by
  simp [World.eventsSince, h]

/-- C7, refuted as stated: the listeners 70 and 71 are registered, and 70
unregisters itself in every callback made on it. The loops walk the listener
vector itself: after the callback on 70 the vector is [71] and the position has
moved on to its end, so one `createInstance`, one `deleteInstance` and one
`update` with a changed instance each call 70 and then stop; 71, still
registered, is never called. -/
theorem fanout_skips_listener_after_self_removal :
    twoInstanceWorld.layer.m_changelisteners = [70, 71] ∧
    (Layer.createInstanceLive selfRemoving 8 twoInstanceWorld 102 5 ⟨2, 3, 0⟩ "e3").map
      (fun r => (callsOf (World.eventsSince twoInstanceWorld r.2),
        r.2.layer.m_changelisteners)) =
      some ([(70, Callback.onInstanceCreate 1 102)], [71]) ∧
    (Layer.deleteInstanceLive selfRemoving 8 twoInstanceWorld 100).map
      (fun r => (callsOf (World.eventsSince twoInstanceWorld r), r.layer.m_changelisteners)) =
      some ([(70, Callback.onInstanceDelete 1 100)], [71]) ∧
    (Layer.updateLive selfRemoving 8 twoInstanceWorld 40 sampleUpdate).map
      (fun r => (callsOf (World.eventsSince twoInstanceWorld r.2),
        r.2.layer.m_changelisteners)) =
      some ([(70, Callback.onLayerChanged 1 [101])], [71]) := by
  decide

/-- C7, amended: listener fan-out, provided no callback adds or removes a
listener of the layer while the fan-out runs. After the listeners `ls` have
been registered through `addChangeListener`, the registration list is the
earlier one followed by `ls` (just `ls` on a fresh layer); one `createInstance`
call, one `deleteInstance` call, or one `update` call that produces a non-empty
changed-instance list then returns (the loop needs one round per registration
and one more) and issues exactly one callback of the corresponding kind
(`onInstanceCreate`, `onInstanceDelete`, `onLayerChanged`) per registration, in
registration order, and no other callback; a listener registered once is thus
called exactly once. The listeners may otherwise do to the layer and the
instances what they like. -/
theorem listener_fanout_when_listeners_kept (react : Reaction)
    (hkeep : react.KeepsListeners) (w : World) (ls : List ListenerPtr) (addr : InstancePtr)
    (object : ObjectPtr) (p : ExactModelCoordinate) (id : String) (inst : InstancePtr)
    (curticks : Nat) (upd : InstanceUpdate) (fuel : Nat)
    (hfuel : (w.layer.m_changelisteners ++ ls).length < fuel) :
    (registerListeners w ls).layer.m_changelisteners = w.layer.m_changelisteners ++ ls ∧
    (∃ r, Layer.createInstanceLive react fuel (registerListeners w ls) addr object p id =
        some r ∧
      callsOf (World.eventsSince (registerListeners w ls) r.2) =
        (w.layer.m_changelisteners ++ ls).map (fun l =>
          (l, Callback.onInstanceCreate w.layer.thisPtr addr)) ∧
      (∀ l, (w.layer.m_changelisteners ++ ls).count l = 1 →
        (callsOf (World.eventsSince (registerListeners w ls) r.2)).filter
          (fun c => decide (c.1 = l)) = [(l, Callback.onInstanceCreate w.layer.thisPtr addr)])) ∧
    (∃ w', Layer.deleteInstanceLive react fuel (registerListeners w ls) inst = some w' ∧
      callsOf (World.eventsSince (registerListeners w ls) w') =
        (w.layer.m_changelisteners ++ ls).map (fun l =>
          (l, Callback.onInstanceDelete w.layer.thisPtr inst)) ∧
      (∀ l, (w.layer.m_changelisteners ++ ls).count l = 1 →
        (callsOf (World.eventsSince (registerListeners w ls) w')).filter
          (fun c => decide (c.1 = l)) = [(l, Callback.onInstanceDelete w.layer.thisPtr inst)])) ∧
    (changedOf upd curticks (Layer.getInstances (registerListeners w ls)) ≠ [] →
      ∃ r, Layer.updateLive react fuel (registerListeners w ls) curticks upd = some r ∧
        (World.eventsSince (registerListeners w ls) r.2).map (fun e => e.listener) =
          w.layer.m_changelisteners ++ ls ∧
        (∀ e ∈ World.eventsSince (registerListeners w ls) r.2,
          e.call = Callback.onLayerChanged w.layer.thisPtr e.layer.m_changedinstances) ∧
        (∀ l, (w.layer.m_changelisteners ++ ls).count l = 1 →
          ((World.eventsSince (registerListeners w ls) r.2).filter
            (fun e => decide (e.listener = l))).length = 1)) := by
  have hreg : (registerListeners w ls).layer.m_changelisteners =
      w.layer.m_changelisteners ++ ls := by rw [registerListeners_frame]
  have hthis : (registerListeners w ls).layer.thisPtr = w.layer.thisPtr := by
    rw [registerListeners_frame]
  have honce : ∀ (cb0 : Callback) (l : ListenerPtr),
      (w.layer.m_changelisteners ++ ls).count l = 1 →
      ((w.layer.m_changelisteners ++ ls).map (fun a => (a, cb0))).filter
        (fun c => decide (c.1 = l)) = [(l, cb0)] := by
    intro cb0 l h1
    rw [calls_to_listener, h1]
    rfl
  refine ⟨hreg, ?_, ?_, ?_⟩
  · obtain ⟨w4, es, hrun, hlog, _, _, hmap, hall⟩ :=
      fanOut_spec react hkeep (fun v => Callback.onInstanceCreate v.layer.thisPtr addr) fuel 0
        { layer := { (registerListeners w ls).layer with
            m_instances := (registerListeners w ls).layer.m_instances ++ [addr]
            m_instanceTree := (registerListeners w ls).layer.m_instanceTree.addInstance
              (registerListeners w ls).layer.m_grid addr
              (Instance.create object ⟨some (registerListeners w ls).layer.thisPtr, p⟩ id) }
          heap := Function.update (registerListeners w ls).heap addr
            (some (Instance.create object ⟨some (registerListeners w ls).layer.thisPtr, p⟩ id))
          log := (registerListeners w ls).log }
        (Nat.zero_le _) (by simpa [hreg] using hfuel)
    have hcalls : callsOf es = (w.layer.m_changelisteners ++ ls).map (fun l =>
        (l, Callback.onInstanceCreate w.layer.thisPtr addr)) := by
      apply callsOf_of_uniform _ es _ (by simpa [hreg] using hmap)
      intro e he
      obtain ⟨v, h1, _, _, h4⟩ := hall e he
      rw [h1]
      show Callback.onInstanceCreate v.layer.thisPtr addr = _
      rw [h4]
      exact congrArg (fun t => Callback.onInstanceCreate t addr) hthis
    have hlog1 : ({ w4 with layer := { w4.layer with m_changed := true } } : World).log =
        (registerListeners w ls).log ++ es := hlog
    refine ⟨(addr, { w4 with layer := { w4.layer with m_changed := true } }), ?_, ?_, ?_⟩
    · simp only [Layer.createInstanceLive, Location.init, Location.setLayer,
        Location.setExactLayerCoordinates]
      rw [hrun]
    · rw [eventsSince_of_log (registerListeners w ls) _ es hlog1, hcalls]
    · intro l h1
      rw [eventsSince_of_log (registerListeners w ls) _ es hlog1, hcalls]
      exact honce _ l h1
  · obtain ⟨w1, es, hrun, hlog, _, _, hmap, hall⟩ :=
      fanOut_spec react hkeep (fun v => Callback.onInstanceDelete v.layer.thisPtr inst) fuel 0
        (registerListeners w ls) (Nat.zero_le _) (by simpa [hreg] using hfuel)
    have hcalls : callsOf es = (w.layer.m_changelisteners ++ ls).map (fun l =>
        (l, Callback.onInstanceDelete w.layer.thisPtr inst)) := by
      apply callsOf_of_uniform _ es _ (by simpa [hreg] using hmap)
      intro e he
      obtain ⟨v, h1, _, _, h4⟩ := hall e he
      rw [h1]
      show Callback.onInstanceDelete v.layer.thisPtr inst = _
      rw [h4]
      exact congrArg (fun t => Callback.onInstanceDelete t inst) hthis
    have hlog2 : ({ (Layer.deleteInstance.eraseLoop inst [] w1.layer.m_instances w1) with
        layer := { (Layer.deleteInstance.eraseLoop inst [] w1.layer.m_instances w1).layer with
          m_changed := true } } : World).log = (registerListeners w ls).log ++ es := by
      by_cases hm : inst ∈ w1.layer.m_instances
      · rw [eraseLoop_mem inst [] _ w1 hm]; exact hlog
      · rw [eraseLoop_not_mem inst [] _ w1 hm]; exact hlog
    refine ⟨_, by simp only [Layer.deleteInstanceLive]; rw [hrun], ?_, ?_⟩
    · rw [eventsSince_of_log (registerListeners w ls) _ es hlog2, hcalls]
    · intro l h1
      rw [eventsSince_of_log (registerListeners w ls) _ es hlog2, hcalls]
      exact honce _ l h1
  · intro hchanged
    have hchanged' : changedOf upd curticks (registerListeners w ls).layer.m_instances ≠ [] :=
      hchanged
    obtain ⟨w3, es, hrun, hlog, _, _, hmap, hall⟩ :=
      fanOut_spec react hkeep
        (fun v => Callback.onLayerChanged v.layer.thisPtr v.layer.m_changedinstances) fuel 0
        (Layer.update.instanceLoop upd curticks (registerListeners w ls).layer.m_instances
          { (registerListeners w ls) with
            layer := { (registerListeners w ls).layer with m_changedinstances := [] } })
        (Nat.zero_le _) (by rw [instanceLoop_layer]; simpa [hreg] using hfuel)
    rw [instanceLoop_log] at hlog
    rw [instanceLoop_layer] at hmap
    have hmap' : es.map (fun e => e.listener) = w.layer.m_changelisteners ++ ls := by
      simpa [hreg] using hmap
    have hlog3 : ({ w3 with layer := { w3.layer with m_changed := false } } : World).log =
        (registerListeners w ls).log ++ es := hlog
    refine ⟨(w3.layer.m_changed, { w3 with layer := { w3.layer with m_changed := false } }),
      ?_, ?_, ?_, ?_⟩
    · simp only [Layer.updateLive, instanceLoop_layer, List.nil_append, ne_eq, hchanged',
        not_false_eq_true, if_true]
      simp only [instanceLoop_layer, List.nil_append] at hrun
      rw [hrun]
    · rw [eventsSince_of_log (registerListeners w ls) _ es hlog3, hmap']
    · intro e he
      rw [eventsSince_of_log (registerListeners w ls) _ es hlog3] at he
      obtain ⟨v, h1, h2, _, h4⟩ := hall e he
      rw [h1, h2]
      show Callback.onLayerChanged v.layer.thisPtr v.layer.m_changedinstances = _
      rw [h4, instanceLoop_layer]
      exact congrArg (fun t => Callback.onLayerChanged t v.layer.m_changedinstances) hthis
    · intro l h1
      rw [eventsSince_of_log (registerListeners w ls) _ es hlog3, length_filter_listener, hmap', h1]

/-- Witness for the amended C7: listeners 70 and 71 are registered on a layer
that owns the instance 101 and had no listener; each of them hides the instances
of the layer in its callbacks, which leaves the listener list alone. A pass in
which 101 reports a change calls 70 and then 71, and so does the creation of an
instance. -/
theorem listener_fanout_when_listeners_kept_witness :
    hidingInstances.KeepsListeners ∧
    changedOf sampleUpdate 40 (Layer.getInstances (registerListeners ownerWorld [70, 71])) ≠ [] ∧
    (∃ r, Layer.updateLive hidingInstances 3 (registerListeners ownerWorld [70, 71]) 40
        sampleUpdate = some r ∧
      (World.eventsSince (registerListeners ownerWorld [70, 71]) r.2).map
        (fun e => e.listener) = ownerWorld.layer.m_changelisteners ++ [70, 71]) ∧
    (Layer.createInstanceLive hidingInstances 3 (registerListeners ownerWorld [70, 71]) 100 5
        ⟨2, 3, 0⟩ "e1").map
      (fun r => callsOf (World.eventsSince (registerListeners ownerWorld [70, 71]) r.2)) =
      some [(70, Callback.onInstanceCreate 1 100), (71, Callback.onInstanceCreate 1 100)] := by
  have hkeep : hidingInstances.KeepsListeners := fun _ _ _ _ => rfl
  have hchanged : changedOf sampleUpdate 40
      (Layer.getInstances (registerListeners ownerWorld [70, 71])) ≠ [] := by decide
  obtain ⟨r, hr, hmap, _⟩ :=
    (listener_fanout_when_listeners_kept hidingInstances hkeep ownerWorld [70, 71] 100 5
      ⟨2, 3, 0⟩ "e1" 101 40 sampleUpdate 3 (by decide)).2.2.2 hchanged
  exact ⟨hkeep, hchanged, ⟨r, hr, hmap⟩, by decide⟩

end FIFE
